import Mathlib

/-!
# Verification of the phishing-email analyzer core

A shallow embedding, in Lean 4, of the parsing and rule-engine core of the
`Phishing_Email_analyzer` repository:

* `src/services/parser.py` — `EmailParser` (header/body/URL extraction,
  URL normalization, content cleaning, size limits);
* `src/services/rules.py`  — `RuleEngine` (the nine weighted heuristic rules,
  score aggregation, label and confidence computation).

Modelling conventions:

* A Python `str` is a sequence of Unicode code points; it is modelled as
  `Str := List Char` (`len` = `List.length`, slicing = `take`/`drop`).
  Raw e-mail bytes are likewise modelled as a `Str` whose characters stand
  for bytes, so `len(email_content)` = `List.length`.
* Python `int` is `Int` (scores, weights); Python `float` arithmetic in the
  confidence computation is modelled as exact rational arithmetic (`ℚ`).
  No value reachable in that computation lies close enough to a rounding
  boundary for the binary-float error (≈1e-16) to change `round(x, 2)`,
  so the rational model agrees with the float computation there.
* Behaviour of the Python standard library that is *not* algorithmically
  specified in the repository (Unicode tables, NFKC, RFC-2047 decoding,
  `email.utils.parseaddr`, IDNA/punycode decoding, `html2text`, MIME
  byte-parsing) is abstracted as a record `PyLib` of function parameters;
  theorems quantify over it.  Purely algorithmic stdlib helpers that the
  repository's control flow depends on (`urllib.parse.urlparse`,
  `urllib.parse.unquote`, `re` matching for the fixed set of patterns,
  `str.split`, `str.strip`, …) are implemented faithfully below.
* Exceptions are modelled with `Except`/`Option`; a caught-and-ignored
  exception becomes the corresponding fallback branch.
* Wall-clock fields (`parse_time_ms`, `processing_time_ms`) and the parse
  timeout are not modelled: they depend on real time, and no claim is about
  them.
-/

/-- Python `str` as a sequence of code points. -/
abbrev Str := List Char

/-- Convert a Lean string literal into the model representation. -/
def strOf (s : String) : Str := s.data

/-- ASCII/str-level whitespace: the code points for which Python's
`str.isspace()` is `True` within the ASCII range
(TAB, LF, VT, FF, CR, FS, GS, RS, US, SPACE). -/
def asciiSpace (c : Char) : Bool :=
  (9 ≤ c.toNat && c.toNat ≤ 13) || (28 ≤ c.toNat && c.toNat ≤ 32)

/-- `p` is a prefix of `l` (decidable, by direct recursion). -/
def isPre : Str → Str → Bool
  | [], _ => true
  | _ :: _, [] => false
  | c :: cs, d :: ds => c = d && isPre cs ds

/-- Python `needle in hay` substring test. -/
def containsSub (needle : Str) : Str → Bool
  | [] => isPre needle []
  | c :: cs => isPre needle (c :: cs) || containsSub needle cs

/-- Python `s.endswith(suffix)`. -/
def strEndsWith (suffix l : Str) : Bool := isPre suffix.reverse l.reverse

/-- Python `s.split(sep)` for a one-character separator (every `split` in the
modelled code uses a one-character separator).  `split` of the empty string
yields `[""]`, as in Python. -/
def splitAllChar (sep : Char) : Str → List Str
  | [] => [[]]
  | c :: cs =>
    match splitAllChar sep cs with
    | [] => [[c]]
    | r :: rs => if c = sep then [] :: r :: rs else (c :: r) :: rs

/-- Split at the first occurrence of `sep` (Python `s.split(sep, 1)` when the
separator occurs); `none` when `sep` does not occur. -/
def splitOnceChar (sep : Char) : Str → Option (Str × Str)
  | [] => none
  | c :: cs =>
    if c = sep then some ([], cs)
    else (splitOnceChar sep cs).map (fun p => (c :: p.1, p.2))

/-- Keep the first occurrence of each element, dropping later duplicates
(model of `list(set(xs))`: CPython's set iteration order is unspecified, and
the modelled code only joins such lists for display strings; first-occurrence
order is the fixed choice of this model). -/
def pyDedupAux (seen : List Str) : List Str → List Str
  | [] => []
  | x :: xs => if x ∈ seen then pyDedupAux seen xs else x :: pyDedupAux (x :: seen) xs

/-- `list(set(xs))` under the first-occurrence ordering convention. -/
def pyDedupFirst (l : List Str) : List Str := pyDedupAux [] l

/-- Decimal rendering of a natural number (Python `str(n)` / f-string
interpolation of a non-negative integer). -/
def natToStr (n : Nat) : Str := (toString n).data

/-- `", ".join(xs)` and friends. -/
def pyJoin (sep : Str) (xs : List Str) : Str := List.intercalate sep xs

/-!
## A small regex interpreter

`src/services/parser.py` and `src/services/rules.py` use `re` with a fixed,
small family of patterns (literals, character classes, `?`, `+`, `*`, `{2,}`,
non-capturing alternation, and the word boundary `\b`).  `Re` is an AST for
exactly those constructs and `matchRe` is a CPS backtracking matcher with
CPython's strategy: alternatives are tried left to right, quantifiers are
greedy (longest first), and the first complete path wins.  Quantifiers only
ever apply to single-character classes or to `.` in the modelled patterns, so
they are represented as class-repetition nodes: "try the longest prefix of the
maximal class run first, backtracking to shorter ones", which coincides with
CPython's backtracking for such patterns.
-/

/-- Regex AST for the patterns appearing in the source. -/
inductive Re where
  /-- literal string -/
  | lit : Str → Re
  /-- a single character matching the class -/
  | cls : (Char → Bool) → Re
  /-- one or more characters of the class, greedy (`+`) -/
  | plus : (Char → Bool) → Re
  /-- zero or more characters of the class, greedy (`*`, used for `.*`) -/
  | star : (Char → Bool) → Re
  /-- two or more characters of the class, greedy (`{2,}`) -/
  | rep2 : (Char → Bool) → Re
  | seq : Re → Re → Re
  /-- alternation, left branch preferred -/
  | alt : Re → Re → Re
  /-- optional, greedy (`?`) -/
  | opt : Re → Re
  /-- word boundary `\b` relative to the given word-character class -/
  | wb : (Char → Bool) → Re

/-- Try `f hi`, `f (hi-1)`, …, `f lo`, returning the first success
(greedy backtracking over a quantifier's repetition count). -/
def tryDescAux (f : Nat → Option Nat) (lo : Nat) : Nat → Option Nat
  | 0 => if lo = 0 then f 0 else none
  | n + 1 => if n + 1 < lo then none else (f (n + 1)).orElse (fun _ => tryDescAux f lo n)

/-- Is the character (when present) a word character? (`\b` helper) -/
def isWordOpt (w : Char → Bool) : Option Char → Bool
  | none => false
  | some c => w c

/-- The last character of `l`, or `prev` when `l` is empty: the character
preceding the current position after consuming `l`. -/
def lastOr (prev : Option Char) (l : Str) : Option Char :=
  match l.getLast? with
  | none => prev
  | some c => some c

/-- CPS backtracking matcher.  `prev` is the character just before the current
position (for `\b`), `s` the remaining input; the continuation `k` receives
the new `prev` and remaining input and returns the remaining length at the end
of the whole match, or `none` to force backtracking.  The result is the value
of the first continuation call that succeeds — CPython's leftmost/greedy
backtracking order. -/
def matchRe : Re → Option Char → Str → (Option Char → Str → Option Nat) → Option Nat
  | .lit p, prev, s, k =>
    if isPre p s then k (lastOr prev p) (s.drop p.length) else none
  | .cls w, _, s, k =>
    match s with
    | [] => none
    | c :: rest => if w c then k (some c) rest else none
  | .plus w, prev, s, k =>
    tryDescAux (fun n => k (lastOr prev (s.take n)) (s.drop n)) 1 ((s.takeWhile w).length)
  | .star w, prev, s, k =>
    tryDescAux (fun n => k (lastOr prev (s.take n)) (s.drop n)) 0 ((s.takeWhile w).length)
  | .rep2 w, prev, s, k =>
    tryDescAux (fun n => k (lastOr prev (s.take n)) (s.drop n)) 2 ((s.takeWhile w).length)
  | .seq a b, prev, s, k =>
    matchRe a prev s (fun prev' s' => matchRe b prev' s' k)
  | .alt a b, prev, s, k =>
    (matchRe a prev s k).orElse (fun _ => matchRe b prev s k)
  | .opt a, prev, s, k =>
    (matchRe a prev s k).orElse (fun _ => k prev s)
  | .wb w, prev, s, k =>
    if isWordOpt w prev ≠ isWordOpt w s.head? then k prev s else none

/-- Length of the match of `re` at the start of `s` (with `prev` the character
before `s`), or `none`. -/
def matchEnd (re : Re) (prev : Option Char) (s : Str) : Option Nat :=
  (matchRe re prev s (fun _ rest => some rest.length)).map (fun r => s.length - r)

/-- `re.finditer` scan: leftmost, non-overlapping matches with their start
positions; after a match the scan resumes at its end (an empty match advances
by one, as in CPython).  `fuel` bounds the number of steps; every step either
consumes input or fuel, so `fuel = s.length + 1` is always enough. -/
def findAllAux (re : Re) : Nat → Option Char → Nat → Str → List (Nat × Str)
  | 0, _, _, _ => []
  | _ + 1, _, _, [] => []
  | fuel + 1, prev, pos, c :: rest =>
    match matchEnd re prev (c :: rest) with
    | none => findAllAux re fuel (some c) (pos + 1) rest
    | some n =>
      if n = 0 then (pos, []) :: findAllAux re fuel (some c) (pos + 1) rest
      else
        (pos, (c :: rest).take n) ::
          findAllAux re fuel (lastOr prev ((c :: rest).take n)) (pos + n) ((c :: rest).drop n)

/-- All matches of `re` in `s` with start positions (`re.finditer`). -/
def findIter (re : Re) (s : Str) : List (Nat × Str) :=
  findAllAux re (s.length + 1) none 0 s

/-- All matches of `re` in `s` (`re.findall`; every modelled pattern is free
of capturing groups, so `findall` returns whole-match strings). -/
def findAll (re : Re) (s : Str) : List Str :=
  (findIter re s).map (fun m => m.2)

/-!
## MIME messages and the standard-library abstraction
-/

/-- One leaf of `msg.walk()`: content *maintype*, full content type, and the
result of `part.get_payload(decode=True)` followed by the charset-decoding
block of `EmailParser._extract_body` (parser.py lines 274–286): `Except.error`
models an exception from that block (outer `except` → warning + `continue`),
`Except.ok none` models a falsy payload (`if not payload: continue`), and
`Except.ok (some content)` the decoded text. -/
structure MimePart where
  maintype : Str
  contentType : Str
  payload : Except Str (Option Str)

/-- The result of `email.message_from_bytes` as consumed by the parser:
headers as (name, value) pairs in order, `is_multipart()`, the `walk()` leaves
for the multipart branch, and the content type / decoded payload for the
single-part branch (parser.py lines 301–318; `Except.error` models an
exception inside the single-part `try`). -/
structure Msg where
  headers : List (Str × Str)
  multipart : Bool
  parts : List MimePart
  contentType : Str
  payload : Except Str Str

/-- Python `str.lower()` of a header name (ASCII in practice for the modelled
lookups). -/
def asciiLower (l : Str) : Str := l.map Char.toLower

/-- `msg.get(name)`: case-insensitive lookup of the first matching header
(`email.message.Message.get` lowercases both names). -/
def Msg.get (m : Msg) (name : Str) : Option Str :=
  (m.headers.find? (fun h => asciiLower h.1 = asciiLower name)).map (fun h => h.2)

/-- `msg.get_all(name, [])`: all matching headers, in order. -/
def Msg.getAll (m : Msg) (name : Str) : List Str :=
  (m.headers.filter (fun h => asciiLower h.1 = asciiLower name)).map (fun h => h.2)

/-- Python standard-library behaviour the repository calls but does not
define, abstracted as parameters.  Each field models one library call site:

* `uLower`, `uWord`, `uSpace`: `str.lower()`, regex `\w`, and
  whitespace (`\s` / `str.strip()`) beyond the ASCII range, where the exact
  Unicode tables are not reproduced here (the ASCII behaviour is handled
  exactly by the wrappers below);
* `uAlpha`: `str.isalpha()` beyond ASCII;
* `unicodeName`: `unicodedata.name(c, '')` — the character's Unicode name,
  or `''` for a nameless character (rules.py `_has_mixed_scripts`);
* `categoryStartsC`: `unicodedata.category(c).startswith('C')`
  (parser.py `_clean_header_value`);
* `nfkc`: `unicodedata.normalize('NFKC', ·)`;
* `decodeHeader`: the whole `email.header.decode_header` + part-joining block
  of `_clean_header_value` (parser.py lines 468–481); `none` = exception →
  the original value is kept;
* `parseaddr`: `email.utils.parseaddr`; `none` = exception;
* `idnaDecode`: `domain.encode('ascii').decode('idna')`; `none` = exception;
* `html2text`: `HTML2Text.handle` with the parser's configuration; `error` =
  exception (→ warning, empty rendered text);
* `messageFromBytes`: `email.message_from_bytes(…, policy=default)`;
  `error` = exception (→ `EmailParsingError`). -/
structure PyLib where
  uLower : Char → Char
  uWord : Char → Bool
  uSpace : Char → Bool
  uAlpha : Char → Bool
  unicodeName : Char → Str
  categoryStartsC : Char → Bool
  nfkc : Str → Str
  decodeHeader : Str → Option Str
  parseaddr : Str → Option (Str × Str)
  idnaDecode : Str → Option Str
  html2text : Str → Except Str Str
  messageFromBytes : Str → Except Str Msg

/-- Python `str.isspace()` for one character (exact on ASCII, `uSpace`
beyond); also the model of regex `\s`. -/
def pyIsSpace (lib : PyLib) (c : Char) : Bool :=
  if c.toNat < 128 then asciiSpace c else lib.uSpace c

/-- Python `str.lower()` for one character (exact on ASCII — `Char.toLower`
maps exactly `A`–`Z` — and `uLower` beyond). -/
def pyLowerChar (lib : PyLib) (c : Char) : Char :=
  if c.toNat < 128 then c.toLower else lib.uLower c

/-- Python `str.lower()`. -/
def pyLower (lib : PyLib) (l : Str) : Str := l.map (pyLowerChar lib)

/-- Python `str.isalpha()` for one character. -/
def pyIsAlpha (lib : PyLib) (c : Char) : Bool :=
  if c.toNat < 128 then c.isAlpha else lib.uAlpha c

/-- Regex `\w` (with `re.UNICODE`): ASCII `[a-zA-Z0-9_]` plus non-ASCII word
characters. -/
def wordClass (lib : PyLib) (c : Char) : Bool :=
  if c.toNat < 128 then (c.isAlphanum || c = '_') else lib.uWord c

/-- Python `s.lstrip()`. -/
def pyLstrip (lib : PyLib) (l : Str) : Str := l.dropWhile (pyIsSpace lib)

/-- Python `s.rstrip()`. -/
def pyRstrip (lib : PyLib) (l : Str) : Str :=
  (l.reverse.dropWhile (pyIsSpace lib)).reverse

/-- Python `s.strip()`. -/
def pyStrip (lib : PyLib) (l : Str) : Str := pyRstrip lib (pyLstrip lib l)

/-- Python `s.isascii()`. -/
def pyIsAscii (l : Str) : Bool := l.all (fun c => c.toNat < 128)

/-!
## `urllib.parse.unquote`

CPython's `unquote(string)` (defaults `encoding='utf-8'`, `errors='replace'`):
if the string has no `'%'` it is returned unchanged; otherwise it is split
into maximal ASCII / non-ASCII runs, non-ASCII runs are kept verbatim, and
each ASCII run goes through `unquote_to_bytes` (split on `'%'`; a following
two-hex-digit pair becomes one byte, otherwise the `'%'` stays) followed by
UTF-8 decoding with replacement characters for malformed sequences (one
`U+FFFD` per maximal subpart, as CPython's `'replace'` handler produces).
-/

/-- Value of a hexadecimal digit. -/
def hexVal (c : Char) : Option Nat :=
  if '0' ≤ c && c ≤ '9' then some (c.toNat - 48)
  else if 'a' ≤ c && c ≤ 'f' then some (c.toNat - 87)
  else if 'A' ≤ c && c ≤ 'F' then some (c.toNat - 55)
  else none

/-- One piece following a `'%'` in `unquote_to_bytes`: a leading two-digit hex
pair becomes one byte, otherwise the `'%'` is kept literally. -/
def unquoteItemBytes : Str → List Nat
  | c1 :: c2 :: rest =>
    match hexVal c1, hexVal c2 with
    | some h, some lo => (16 * h + lo) :: rest.map Char.toNat
    | _, _ => 37 :: (c1 :: c2 :: rest).map Char.toNat
  | short => 37 :: short.map Char.toNat

/-- `urllib.parse.unquote_to_bytes` on an ASCII run. -/
def unquoteAsciiBytes (run : Str) : List Nat :=
  match splitAllChar '%' run with
  | [] => run.map Char.toNat
  | first :: items => first.map Char.toNat ++ (items.map unquoteItemBytes).flatten

/-- The Unicode replacement character. -/
def uReplacement : Char := Char.ofNat 0xFFFD

/-- Is `b` a UTF-8 continuation byte? -/
def utf8ContOk (b : Nat) : Bool := 0x80 ≤ b && b ≤ 0xBF

/-- Admissible second byte after a three-byte leader (excludes overlong forms
and surrogates, as CPython's strict UTF-8 decoder does). -/
def utf8Second3Ok (b b2 : Nat) : Bool :=
  if b = 0xE0 then 0xA0 ≤ b2 && b2 ≤ 0xBF
  else if b = 0xED then 0x80 ≤ b2 && b2 ≤ 0x9F
  else utf8ContOk b2

/-- Admissible second byte after a four-byte leader. -/
def utf8Second4Ok (b b2 : Nat) : Bool :=
  if b = 0xF0 then 0x90 ≤ b2 && b2 ≤ 0xBF
  else if b = 0xF4 then 0x80 ≤ b2 && b2 ≤ 0x8F
  else utf8ContOk b2

/-- UTF-8 decoding with `errors='replace'`: one replacement character per
maximal subpart of a malformed sequence.  The fuel argument only forces
termination; every step consumes at least one byte, so `length + 1` fuel is
always sufficient. -/
def utf8DecodeReplaceAux : Nat → List Nat → Str
  | 0, _ => []
  | _ + 1, [] => []
  | fuel + 1, b :: bs =>
    if b < 0x80 then Char.ofNat b :: utf8DecodeReplaceAux fuel bs
    else if 0xC2 ≤ b && b ≤ 0xDF then
      match bs with
      | b2 :: bs2 =>
        if utf8ContOk b2 then
          Char.ofNat ((b - 0xC0) * 64 + (b2 - 0x80)) :: utf8DecodeReplaceAux fuel bs2
        else uReplacement :: utf8DecodeReplaceAux fuel (b2 :: bs2)
      | [] => [uReplacement]
    else if 0xE0 ≤ b && b ≤ 0xEF then
      match bs with
      | b2 :: bs2 =>
        if utf8Second3Ok b b2 then
          match bs2 with
          | b3 :: bs3 =>
            if utf8ContOk b3 then
              Char.ofNat (((b - 0xE0) * 64 + (b2 - 0x80)) * 64 + (b3 - 0x80)) ::
                utf8DecodeReplaceAux fuel bs3
            else uReplacement :: utf8DecodeReplaceAux fuel (b3 :: bs3)
          | [] => [uReplacement]
        else uReplacement :: utf8DecodeReplaceAux fuel (b2 :: bs2)
      | [] => [uReplacement]
    else if 0xF0 ≤ b && b ≤ 0xF4 then
      match bs with
      | b2 :: bs2 =>
        if utf8Second4Ok b b2 then
          match bs2 with
          | b3 :: bs3 =>
            if utf8ContOk b3 then
              match bs3 with
              | b4 :: bs4 =>
                if utf8ContOk b4 then
                  Char.ofNat ((((b - 0xF0) * 64 + (b2 - 0x80)) * 64 + (b3 - 0x80)) * 64
                      + (b4 - 0x80)) :: utf8DecodeReplaceAux fuel bs4
                else uReplacement :: utf8DecodeReplaceAux fuel (b4 :: bs4)
              | [] => [uReplacement]
            else uReplacement :: utf8DecodeReplaceAux fuel (b3 :: bs3)
          | [] => [uReplacement]
        else uReplacement :: utf8DecodeReplaceAux fuel (b2 :: bs2)
      | [] => [uReplacement]
    else uReplacement :: utf8DecodeReplaceAux fuel bs

/-- UTF-8 decoding with `errors='replace'`. -/
def utf8DecodeReplace (bs : List Nat) : Str :=
  utf8DecodeReplaceAux (bs.length + 1) bs

/-- Split into maximal runs of ASCII (`true`) / non-ASCII (`false`)
characters, modelling the `_asciire` split inside `unquote`. -/
def groupAsciiRuns (l : Str) : List (Bool × Str) :=
  l.foldr
    (fun c acc =>
      match acc with
      | [] => [(decide (c.toNat < 128), [c])]
      | (b, run) :: rest =>
        if decide (c.toNat < 128) = b then (b, c :: run) :: rest
        else (decide (c.toNat < 128), [c]) :: (b, run) :: rest)
    []

/-- `urllib.parse.unquote(s)` (UTF-8, `errors='replace'`). -/
def unquote (l : Str) : Str :=
  if '%' ∈ l then
    ((groupAsciiRuns l).map
      (fun g => if g.1 then utf8DecodeReplace (unquoteAsciiBytes g.2) else g.2)).flatten
  else l

/-!
## `urllib.parse.urlsplit` / `urlparse`

Modelled on CPython ≥ 3.10: leading WHATWG C0-control/space characters are
stripped, ASCII tab/CR/LF are removed, the scheme is recognised before `':'`
when it is alphanumeric-`+`-`-`-`.` starting with an ASCII letter, a
`'//'`-introduced netloc extends to the next `/?#`, an unbalanced-bracket
netloc raises `ValueError` ("Invalid IPv6 URL"), the fragment is split at the
first `'#'`, the query at the first `'?'`, and `_check_bracketed_host`-style
NFKC validation of non-ASCII netlocs may raise.  `urlparse` additionally
splits `;params` from the last path segment for schemes that use them.
-/

/-- First index satisfying `p`, if any. -/
def findIdxOpt (p : Char → Bool) : Str → Option Nat
  | [] => none
  | c :: cs => if p c then some 0 else (findIdxOpt p cs).map (· + 1)

/-- Last index satisfying `p`, if any (Python `str.rfind`). -/
def rfindIdxOpt (p : Char → Bool) (l : Str) : Option Nat :=
  (findIdxOpt p l.reverse).map (fun i => l.length - 1 - i)

/-- First index `≥ start` satisfying `p`, if any (Python `str.find(c, start)`). -/
def findIdxFromOpt (p : Char → Bool) (start : Nat) (l : Str) : Option Nat :=
  (findIdxOpt p (l.drop start)).map (· + start)

/-- The characters ending a netloc (`_splitnetloc` looks for `/?#`). -/
def netlocDelim (c : Char) : Bool := c = '/' || c = '?' || c = '#'

/-- The netloc `urlsplit` extracts from `"<scheme>://" ++ t`: `t` up to the
first `/?#`. -/
def netlocOfT (t : Str) : Str := t.take (t.findIdx netlocDelim)

/-- What follows the netloc. -/
def afterNetlocT (t : Str) : Str := t.drop (t.findIdx netlocDelim)

/-- The pre-params path component `urlsplit` extracts from
`"<scheme>://" ++ t` when `t` has no `'#'`. -/
def pathOfT (t : Str) : Str :=
  match splitOnceChar '?' (afterNetlocT t) with
  | some pq => pq.1
  | none => afterNetlocT t

/-- The query component `urlsplit` extracts from `"<scheme>://" ++ t` when
`t` has no `'#'`. -/
def queryOfT (t : Str) : Str :=
  match splitOnceChar '?' (afterNetlocT t) with
  | some pq => pq.2
  | none => []

/-- The unbalanced-bracket test of `urlsplit` on a netloc. -/
def bracketBad (netloc : Str) : Bool :=
  (('[' ∈ netloc) && (']' ∉ netloc)) || ((']' ∈ netloc) && ('[' ∉ netloc))

/-- CPython `scheme_chars`. -/
def schemeChars (c : Char) : Bool :=
  c.isAlphanum || c = '+' || c = '-' || c = '.'

/-- WHATWG C0 control or space (stripped from the start of a URL). -/
def whatwgC0OrSpace (c : Char) : Bool := c.toNat ≤ 0x20

/-- `_UNSAFE_URL_BYTES_TO_REMOVE` = tab, CR, LF. -/
def unsafeUrlByte (c : Char) : Bool := c = '\t' || c = '\r' || c = '\n'

/-- Result of `urlsplit` (named fields of the 5-tuple). -/
structure SplitResult where
  scheme : Str
  netloc : Str
  path : Str
  query : Str
  fragment : Str
deriving DecidableEq

/-- Result of `urlparse` (named fields of the 6-tuple). -/
structure ParseResult where
  scheme : Str
  netloc : Str
  path : Str
  params : Str
  query : Str
  fragment : Str
deriving DecidableEq

/-- CPython `urllib.parse._checknetloc`: reject non-ASCII netlocs whose NFKC
normalization (after dropping `@:#?`) introduces a URL delimiter. -/
def checknetloc (lib : PyLib) (netloc : Str) : Except Str Unit :=
  if netloc = [] || pyIsAscii netloc then .ok ()
  else
    let n := netloc.filter (fun c => c ≠ '@' && c ≠ ':' && c ≠ '#' && c ≠ '?')
    let netloc2 := lib.nfkc n
    if n = netloc2 then .ok ()
    else if ['/', '?', '#', '@', ':'].any (fun c => c ∈ netloc2) then
      .error (strOf ("netloc contains invalid characters under NFKC normalization"))
    else .ok ()

/-- `urllib.parse.urlsplit` (`allow_fragments=True`). -/
def urlsplit (lib : PyLib) (url0 : Str) : Except Str SplitResult :=
  let url1 := url0.dropWhile whatwgC0OrSpace
  let url := url1.filter (fun c => !unsafeUrlByte c)
  let schemeRest : Str × Str :=
    match findIdxOpt (fun c => c = ':') url with
    | some i =>
      if 0 < i
          && (match url.head? with
              | some c => decide (c.toNat < 128) && c.isAlpha
              | none => false)
          && (url.take i).all schemeChars
      then (asciiLower (url.take i), url.drop (i + 1))
      else ([], url)
    | none => ([], url)
  let scheme := schemeRest.1
  let rest0 := schemeRest.2
  let netlocRest : Except Str (Str × Str) :=
    if isPre (strOf ("//")) rest0 then
      let after := rest0.drop 2
      let d := after.findIdx netlocDelim
      let netloc := after.take d
      if bracketBad netloc then .error (strOf ("Invalid IPv6 URL"))
      else .ok (netloc, after.drop d)
    else .ok ([], rest0)
  match netlocRest with
  | .error e => .error e
  | .ok (netloc, rest1) =>
    let fragSplit :=
      match splitOnceChar '#' rest1 with
      | some p => p
      | none => (rest1, [])
    let querySplit :=
      match splitOnceChar '?' fragSplit.1 with
      | some p => p
      | none => (fragSplit.1, [])
    match checknetloc lib netloc with
    | .error e => .error e
    | .ok _ =>
      .ok ⟨scheme, netloc, querySplit.1, querySplit.2, fragSplit.2⟩

/-- CPython `urllib.parse._splitparams`. -/
def splitparams (url : Str) : Str × Str :=
  let i :=
    if '/' ∈ url then
      match rfindIdxOpt (fun c => c = '/') url with
      | some r => findIdxFromOpt (fun c => c = ';') r url
      | none => findIdxOpt (fun c => c = ';') url
    else findIdxOpt (fun c => c = ';') url
  match i with
  | some j => (url.take j, url.drop (j + 1))
  | none => (url, [])

/-- The schemes for which `urlparse` splits `;params` (CPython `uses_params`). -/
def usesParams : List Str :=
  [strOf (""), strOf ("ftp"), strOf ("hdl"), strOf ("prospero"), strOf ("http"),
   strOf ("imap"), strOf ("https"), strOf ("shttp"), strOf ("rtsp"),
   strOf ("rtspu"), strOf ("sip"), strOf ("sips"), strOf ("mms"),
   strOf ("sftp"), strOf ("tel")]

/-- `urllib.parse.urlparse`. -/
def pyUrlparse (lib : PyLib) (url : Str) : Except Str ParseResult :=
  match urlsplit lib url with
  | .error e => .error e
  | .ok r =>
    if r.scheme ∈ usesParams && ';' ∈ r.path then
      let pp := splitparams r.path
      .ok ⟨r.scheme, r.netloc, pp.1, pp.2, r.query, r.fragment⟩
    else .ok ⟨r.scheme, r.netloc, r.path, [], r.query, r.fragment⟩

/-!
## The e-mail parser (`src/services/parser.py`)
-/

/-- parser.py line 26: `MAX_PARSED_TEXT_SIZE = 1024 * 1024`. -/
def MAX_PARSED_TEXT_SIZE : Nat := 1024 * 1024

/-- parser.py line 28: `MAX_URLS_PER_EMAIL = 500`. -/
def MAX_URLS_PER_EMAIL : Nat := 500

/-- parser.py line 29: `MAX_HEADER_SIZE = 64 * 1024`. -/
def MAX_HEADER_SIZE : Nat := 64 * 1024

/-- parser.py line 136: the 25 MB raw-input hard ceiling. -/
def RAW_SIZE_LIMIT : Nat := 25 * 1024 * 1024

/-- parser.py lines 37–49: `TRACKING_PARAMS`. -/
def TRACKING_PARAMS : List Str :=
  [strOf ("utm_source"), strOf ("utm_medium"), strOf ("utm_campaign"),
   strOf ("utm_term"), strOf ("utm_content"), strOf ("fbclid"), strOf ("gclid"),
   strOf ("msclkid"), strOf ("_ga"), strOf ("mc_cid"), strOf ("mc_eid")]

/-- The character class of `URL_REGEX` (parser.py lines 32–34):
`[\w]|[0-9]|[$-_@.&+]|[!*\\(\\),]|(?:%[0-9a-fA-F][0-9a-fA-F])`, branch by
branch.  The two-hex-digit escape branch is subsumed by the earlier branches
(`%` and the hex digits all lie in `[$-_]` ∪ `[\w]`), so the alternation
under `+` is equivalent to repeating this single character class. -/
def urlChar (lib : PyLib) (c : Char) : Bool :=
  wordClass lib c || c.isDigit || ('$' ≤ c && c ≤ '_') ||
    (c = '@' || c = '.' || c = '&' || c = '+') ||
    (c = '!' || c = '*' || c = '\\' || c = '(' || c = ')' || c = ',')

/-- `URL_REGEX`: `http[s]?://(…)+`. -/
def urlRegex (lib : PyLib) : Re :=
  .seq (.lit (strOf ("http")))
    (.seq (.opt (.lit (strOf ("s"))))
      (.seq (.lit (strOf ("://"))) (.plus (urlChar lib))))

/-- `ParsedURL` (parser.py lines 52–61). -/
structure ParsedURL where
  original : Str
  normalized : Str
  domain : Str
  path : Str
  position : Nat
  context : Str
deriving DecidableEq

/-- `ParsedHeaders` (parser.py lines 64–78). -/
structure ParsedHeaders where
  from_addr : Str
  from_display : Str
  to_addr : Str
  reply_to : Str
  return_path : Str
  subject : Str
  date : Str
  received : List Str
  authentication_results : Str
  message_id : Str
  other_headers : List (Str × Str)
deriving DecidableEq

/-- `ParsedEmail` (parser.py lines 81–93); the wall-clock `parse_time_ms`
field is not modelled. -/
structure ParsedEmail where
  headers : ParsedHeaders
  text_body : Str
  html_body : Str
  html_as_text : Str
  urls : List ParsedURL
  security_warnings : List Str
  raw_size : Nat
  parsed_size : Nat
deriving DecidableEq

/-- `EmailParser._clean_header_value` (parser.py lines 462–495): empty guard,
RFC-2047 decoding with fallback to the original value on failure, NFKC
normalization, strip, and removal of control characters other than
tab/LF/CR/space. -/
def cleanHeaderValue (lib : PyLib) (value : Str) : Str :=
  if value = [] then []
  else
    let value := (lib.decodeHeader value).getD value
    let value := pyStrip lib (lib.nfkc value)
    value.filter (fun c => (c ∈ [' ', '\t', '\n', '\r']) || !lib.categoryStartsC c)

/-- `re.sub(r"\n{3,}", "\n\n", ·)`: each maximal run of `k ≥ 1` newlines is
replaced by `min k 2` newlines (runs of one or two are unchanged). -/
def collapseNewlinesAux : Nat → Str → Str
  | k, [] => List.replicate (min k 2) '\n'
  | k, c :: cs =>
    if c = '\n' then collapseNewlinesAux (k + 1) cs
    else List.replicate (min k 2) '\n' ++ c :: collapseNewlinesAux 0 cs

/-- `re.sub(r"\n{3,}", "\n\n", ·)`. -/
def collapseNewlines (l : Str) : Str := collapseNewlinesAux 0 l

/-- `EmailParser._clean_text_content` (parser.py lines 497–518): empty guard,
NFKC, per-line `rstrip`, re-joining, collapsing runs of three or more
newlines to two, and a final `strip`. -/
def cleanTextContent (lib : PyLib) (content : Str) : Str :=
  if content = [] then []
  else
    let content := lib.nfkc content
    let cleanedLines := (splitAllChar '\n' content).map (pyRstrip lib)
    let content := pyJoin (strOf ("\n")) cleanedLines
    let content := collapseNewlines content
    pyStrip lib content

/-- `safe_header` inside `_extract_headers` (parser.py lines 205–214):
missing header → `""`; oversize header → truncation plus a warning; then
`_clean_header_value`.  Returns the value together with the updated warning
list (the Python code mutates a shared `warnings` list). -/
def safeHeader (lib : PyLib) (msg : Msg) (name : Str) (ws : List Str) :
    Str × List Str :=
  let value := (msg.get name).getD []
  if MAX_HEADER_SIZE < value.length then
    (cleanHeaderValue lib (value.take MAX_HEADER_SIZE),
     ws ++ [strOf ("Header '") ++ name ++ strOf ("' truncated")])
  else (cleanHeaderValue lib value, ws)

/-- `parse_address` inside `_extract_headers` (parser.py lines 216–227):
empty string → `("", "")`; otherwise `email.utils.parseaddr` with both parts
cleaned; an exception yields `("", addr_str)`. -/
def parseAddress (lib : PyLib) (addr : Str) : Str × Str :=
  if addr = [] then ([], [])
  else
    match lib.parseaddr addr with
    | some p => (cleanHeaderValue lib p.1, cleanHeaderValue lib p.2)
    | none => ([], addr)

/-- The `Received`-header loop of `_extract_headers` (parser.py lines
233–240): keep at most 20, each cleaned and truncated to 1000 characters. -/
def takeReceived (lib : PyLib) (acc : List Str) : List Str → List Str
  | [] => acc
  | r :: rs =>
    if 20 ≤ acc.length then acc
    else takeReceived lib (acc ++ [(cleanHeaderValue lib r).take 1000]) rs

/-- `EmailParser._extract_headers` (parser.py lines 200–254).  Warnings are
threaded in the evaluation order of the Python code (the `From` header first,
then the constructor arguments left to right). -/
def extractHeaders (lib : PyLib) (msg : Msg) (ws : List Str) :
    ParsedHeaders × List Str :=
  let fromStep := safeHeader lib msg (strOf ("From")) ws
  let fromParsed := parseAddress lib fromStep.1
  let receivedHeaders := takeReceived lib [] (msg.getAll (strOf ("Received")))
  let toStep := safeHeader lib msg (strOf ("To")) fromStep.2
  let replyStep := safeHeader lib msg (strOf ("Reply-To")) toStep.2
  let returnStep := safeHeader lib msg (strOf ("Return-Path")) replyStep.2
  let subjectStep := safeHeader lib msg (strOf ("Subject")) returnStep.2
  let dateStep := safeHeader lib msg (strOf ("Date")) subjectStep.2
  let authStep := safeHeader lib msg (strOf ("Authentication-Results")) dateStep.2
  let midStep := safeHeader lib msg (strOf ("Message-ID")) authStep.2
  (⟨(fromParsed).2, (fromParsed).1,
    (parseAddress lib toStep.1).2,
    (parseAddress lib replyStep.1).2,
    returnStep.1, subjectStep.1, dateStep.1,
    receivedHeaders, authStep.1, midStep.1, []⟩,
   midStep.2)

/-- The per-part body of the multipart loop in `_extract_body` (parser.py
lines 267–300).  State: (text_body, html_body, warnings). -/
def extractBodyPart (pt : MimePart) (st : Str × Str × List Str) :
    Str × Str × List Str :=
  if pt.maintype = strOf ("multipart") then st
  else
    match pt.payload with
    | .error e =>
      (st.1, st.2.1,
       st.2.2 ++ [strOf ("Failed to decode part ") ++ pt.contentType ++ strOf (": ") ++ e])
    | .ok none => st
    | .ok (some content0) =>
      let step :=
        if MAX_PARSED_TEXT_SIZE < content0.length then
          (content0.take MAX_PARSED_TEXT_SIZE,
           st.2.2 ++ [strOf ("Part content truncated: ") ++ pt.contentType])
        else (content0, st.2.2)
      if pt.contentType = strOf ("text/plain") then
        (st.1 ++ step.1 ++ strOf ("\n"), st.2.1, step.2)
      else if pt.contentType = strOf ("text/html") then
        (st.1, st.2.1 ++ step.1 ++ strOf ("\n"), step.2)
      else (st.1, st.2.1, step.2)

/-- `EmailParser._extract_body` (parser.py lines 256–339): the multipart walk
or the single-part branch, HTML-to-text conversion, and text cleaning.
Returns ((text_body, html_body, html_as_text), warnings). -/
def extractBody (lib : PyLib) (msg : Msg) (ws : List Str) :
    (Str × Str × Str) × List Str :=
  let bodyStep :=
    if msg.multipart then
      msg.parts.foldl (fun st pt => extractBodyPart pt st) ([], [], ws)
    else
      match msg.payload with
      | .error e =>
        ([], [], ws ++ [strOf ("Failed to decode single part: ") ++ e])
      | .ok content =>
        if msg.contentType = strOf ("text/plain") then (content, [], ws)
        else if msg.contentType = strOf ("text/html") then ([], content, ws)
        else ([], [], ws)
  let textBody := bodyStep.1
  let htmlBody := bodyStep.2.1
  let ws1 := bodyStep.2.2
  let htmlStep :=
    if htmlBody ≠ [] then
      match lib.html2text htmlBody with
      | .ok t => (cleanTextContent lib t, ws1)
      | .error e =>
        ([], ws1 ++ [strOf ("HTML to text conversion failed: ") ++ e])
    else ([], ws1)
  ((cleanTextContent lib textBody, htmlBody, htmlStep.1), htmlStep.2)

/-- The query-parameter keep-predicate of `EmailParser._normalize_url`
(parser.py lines 437–441): drop a `key=value` parameter whose lowercased key
is a tracking parameter, keep everything else. -/
def normKeep (lib : PyLib) (param : Str) : Bool :=
  if '=' ∈ param then
    let key := pyLower lib (((splitAllChar '=' param).headD []))
    !(key ∈ TRACKING_PARAMS)
  else true

/-- `EmailParser._normalize_url` (parser.py lines 413–460): parse, lowercase
the netloc, IDNA-decode `xn--` domains (keeping the original on failure),
drop tracking query parameters, percent-decode the path, and reassemble;
any parsing exception returns the URL unchanged. -/
def normalizeUrl (lib : PyLib) (url : Str) : Str :=
  match pyUrlparse lib url with
  | .error _ => url
  | .ok parsed =>
    let domain0 := pyLower lib parsed.netloc
    let domain :=
      if isPre (strOf ("xn--")) domain0 || containsSub (strOf (".xn--")) domain0 then
        (lib.idnaDecode domain0).getD domain0
      else domain0
    let queryParams :=
      if parsed.query ≠ [] then
        (splitAllChar '&' parsed.query).filter (normKeep lib)
      else []
    let cleanQuery := if queryParams ≠ [] then pyJoin (strOf ("&")) queryParams else []
    let path := unquote parsed.path
    let normalized := parsed.scheme ++ strOf ("://") ++ domain ++ path
    let normalized :=
      if cleanQuery ≠ [] then normalized ++ strOf ("?") ++ cleanQuery else normalized
    if parsed.fragment ≠ [] then normalized ++ strOf ("#") ++ parsed.fragment
    else normalized

/-- The inner match loop of `_extract_urls` for one search context (parser.py
lines 366–405): cap at `MAX_URLS_PER_EMAIL` (with a warning and `break`),
build the context window, normalize, deduplicate by normalized form, and
parse the domain (`"invalid"` on failure).  State: (urls, seen, warnings). -/
def extractUrlsLoop (lib : PyLib) (content : Str) :
    List ParsedURL × List Str × List Str → List (Nat × Str) →
    List ParsedURL × List Str × List Str
  | st, [] => st
  | (urls, seen, ws), (pos, m) :: rest =>
    if MAX_URLS_PER_EMAIL ≤ urls.length then
      (urls, seen, ws ++ [strOf ("URL limit reached: ") ++ natToStr MAX_URLS_PER_EMAIL])
    else
      let startCtx := pos - 20
      let endCtx := min content.length (pos + m.length + 20)
      let context :=
        ((content.drop startCtx).take (endCtx - startCtx)).map
          (fun c => if c = '\n' then ' ' else c)
      let normalized := normalizeUrl lib m
      if normalized ∈ seen then extractUrlsLoop lib content (urls, seen, ws) rest
      else
        let domainPath :=
          match pyUrlparse lib normalized with
          | .ok parsed => (pyLower lib parsed.netloc, parsed.path)
          | .error _ => (strOf ("invalid"), [])
        extractUrlsLoop lib content
          (urls ++ [⟨m, normalized, domainPath.1, domainPath.2, pos, context⟩],
           seen ++ [normalized], ws) rest

/-- `EmailParser._extract_urls` (parser.py lines 341–411): scan the four
search contexts in order, skipping empty ones. -/
def extractUrls (lib : PyLib) (textBody htmlBody : Str) (headers : ParsedHeaders)
    (ws : List Str) : List ParsedURL × List Str :=
  let contexts := [textBody, htmlBody, headers.subject, headers.return_path]
  let final :=
    contexts.foldl
      (fun st content =>
        if content = [] then st
        else extractUrlsLoop lib content st (findIter (urlRegex lib) content))
      (([] : List ParsedURL), ([] : List Str), ws)
  (final.1, final.2.2)

/-- `EmailParser.parse_email` (parser.py lines 116–181): the raw-size
ceiling, MIME parsing, header/body/URL extraction, the parsed-size check with
truncation of `text_body` and `html_as_text`, and the final `ParsedEmail`.
Note that `parsed_size` is computed (line 155) *before* the truncation
branch (lines 158–163) and is not recomputed afterwards.  Failures are
wrapped as `EmailParsingError` messages (line 181). -/
def parseEmail (lib : PyLib) (emailContent : Str) : Except Str ParsedEmail :=
  let rawSize := emailContent.length
  if RAW_SIZE_LIMIT < rawSize then
    .error (strOf ("Failed to parse email: Email too large: ") ++ natToStr rawSize
      ++ strOf (" bytes"))
  else
    match lib.messageFromBytes emailContent with
    | .error e =>
      .error (strOf ("Failed to parse email: MIME parsing failed: ") ++ e)
    | .ok msg =>
      let headersStep := extractHeaders lib msg []
      let bodyStep := extractBody lib msg headersStep.2
      let textBody := bodyStep.1.1
      let htmlBody := bodyStep.1.2.1
      let htmlAsText := bodyStep.1.2.2
      let urlsStep := extractUrls lib textBody htmlBody headersStep.1 bodyStep.2
      let parsedSize := textBody.length + htmlBody.length
      let truncStep :=
        if MAX_PARSED_TEXT_SIZE < parsedSize then
          (textBody.take (MAX_PARSED_TEXT_SIZE / 2),
           htmlAsText.take (MAX_PARSED_TEXT_SIZE / 2),
           urlsStep.2 ++
             [strOf ("Parsed content truncated: ") ++ natToStr parsedSize
               ++ strOf (" > ") ++ natToStr MAX_PARSED_TEXT_SIZE])
        else (textBody, htmlAsText, urlsStep.2)
      .ok ⟨headersStep.1, truncStep.1, htmlBody, truncStep.2.1, urlsStep.1,
        truncStep.2.2, rawSize, parsedSize⟩

/-!
## The rule engine (`src/services/rules.py`)
-/

/-- rules.py lines 21–25: `URL_SHORTENERS` (a Python set; only membership is
used, so the order below is irrelevant). -/
def URL_SHORTENERS : List Str :=
  [strOf ("bit.ly"), strOf ("tinyurl.com"), strOf ("t.co"), strOf ("goo.gl"),
   strOf ("ow.ly"), strOf ("is.gd"), strOf ("buff.ly"), strOf ("adf.ly"),
   strOf ("short.link"), strOf ("tiny.cc"), strOf ("rb.gy"), strOf ("cutt.ly"),
   strOf ("short.io"), strOf ("rebrandly.com"), strOf ("clck.ru")]

/-- rules.py lines 28–32: `SUSPICIOUS_TLDS` (a Python set, iterated with a
`break` on first hit; no element is a suffix of another, so at most one can
match a given domain and the unspecified set order does not affect the
outcome — the source-text order is used here). -/
def SUSPICIOUS_TLDS : List Str :=
  [strOf (".top"), strOf (".xyz"), strOf (".click"), strOf (".cam"),
   strOf (".zip"), strOf (".download"), strOf (".work"), strOf (".men"),
   strOf (".date"), strOf (".racing"), strOf (".loan"), strOf (".science"),
   strOf (".cf"), strOf (".tk"), strOf (".ml"), strOf (".ga"),
   strOf (".country"), strOf (".stream")]

/-- rules.py lines 51–54: `ATTACHMENT_KEYWORDS`. -/
def ATTACHMENT_KEYWORDS : List Str :=
  [strOf ("invoice"), strOf ("payment"), strOf ("receipt"), strOf ("bill"),
   strOf ("statement"), strOf ("document"), strOf ("attachment"),
   strOf ("pdf"), strOf ("download"), strOf ("password")]

/-- Right-nested alternation of literals (`(?:a|b|…)`, tried left to right). -/
def reAltList : List Str → Re
  | [] => .lit []
  | [s] => .lit s
  | s :: rest => .alt (.lit s) (reAltList rest)

/-- Right-nested sequence. -/
def reSeqList : List Re → Re
  | [] => .lit []
  | [r] => r
  | r :: rest => .seq r (reSeqList rest)

/-- rules.py lines 35–40: `URGENT_PATTERNS`, pattern by pattern. -/
def URGENT_PATTERNS (lib : PyLib) : List Re :=
  let wb := Re.wb (wordClass lib)
  let sp := Re.plus (pyIsSpace lib)
  [reSeqList [wb, .lit (strOf ("urgent")), wb],
   reSeqList [wb, .lit (strOf ("immediate")), sp, .lit (strOf ("action")), wb],
   reSeqList [wb, .lit (strOf ("expire")), .opt (.lit (strOf ("s"))), sp,
     .lit (strOf ("today")), wb],
   reSeqList [wb, .lit (strOf ("verify")), sp, .lit (strOf ("your")), sp,
     .lit (strOf ("account")), wb],
   reSeqList [wb, .lit (strOf ("suspend")), .opt (.lit (strOf ("ed"))), sp,
     .lit (strOf ("account")), wb],
   reSeqList [wb, .lit (strOf ("act")), sp, .lit (strOf ("now")), wb],
   reSeqList [wb, .lit (strOf ("time")), sp, .lit (strOf ("sensitive")), wb],
   reSeqList [wb, .lit (strOf ("limited")), sp, .lit (strOf ("time")), wb],
   reSeqList [wb, .lit (strOf ("24")), sp, .lit (strOf ("hour")),
     .opt (.lit (strOf ("s"))), wb],
   reSeqList [wb, .lit (strOf ("expir")),
     .alt (.lit (strOf ("e"))) (.lit (strOf ("ing"))), sp,
     .lit (strOf ("soon")), wb]]

/-- rules.py lines 43–48: `GENERIC_GREETINGS`. -/
def GENERIC_GREETINGS (lib : PyLib) : List Re :=
  let wb := Re.wb (wordClass lib)
  let sp := Re.plus (pyIsSpace lib)
  [reSeqList [wb, .lit (strOf ("dear")), sp,
     reAltList [strOf ("user"), strOf ("customer"), strOf ("client"),
       strOf ("member"), strOf ("sir"), strOf ("madam")], wb],
   reSeqList [wb, .lit (strOf ("valued")), sp,
     reAltList [strOf ("customer"), strOf ("client"), strOf ("member")], wb],
   reSeqList [wb, .lit (strOf ("hello")), sp,
     reAltList [strOf ("user"), strOf ("customer"), strOf ("there")], wb],
   reSeqList [wb, .lit (strOf ("greeting")), .opt (.lit (strOf ("s"))), sp,
     .opt (reAltList [strOf ("user"), strOf ("customer")]), wb]]

/-- rules.py lines 57–62: `AUTH_FAIL_PATTERNS` (`.` does not match a
newline). -/
def AUTH_FAIL_PATTERNS (lib : PyLib) : List Re :=
  let sp := Re.star (pyIsSpace lib)
  [reSeqList [.lit (strOf ("spf")), sp, .lit (strOf ("=")), sp,
     reAltList [strOf ("fail"), strOf ("softfail"), strOf ("none")]],
   reSeqList [.lit (strOf ("dkim")), sp, .lit (strOf ("=")), sp,
     reAltList [strOf ("fail"), strOf ("none")]],
   reSeqList [.lit (strOf ("dmarc")), sp, .lit (strOf ("=")), sp,
     reAltList [strOf ("fail"), strOf ("none")]],
   reSeqList [.lit (strOf ("authentication-results:")),
     .star (fun c => c ≠ '\n'),
     reAltList [strOf ("fail"), strOf ("none")]]]

/-- rules.py line 113: `domain_pattern = r'[a-zA-Z0-9.-]+\.[a-zA-Z]{2,}'`. -/
def domainPattern : Re :=
  reSeqList [.plus (fun c => c.isAlpha || c.isDigit || c = '.' || c = '-'),
    .lit (strOf (".")), .rep2 (fun c => c.isAlpha)]

/-- `RuleEvidence` (rules.py lines 65–72). -/
structure RuleEvidence where
  rule_id : Str
  description : Str
  weight : Int
  details : Str
  matched_content : Option Str
deriving DecidableEq

/-- `DetectionResult` (rules.py lines 75–84); the wall-clock
`processing_time_ms` field is not modelled. -/
structure DetectionResult where
  score : Int
  label : Str
  confidence : ℚ
  evidence : List RuleEvidence
  rules_checked : Nat
  rules_fired : Nat
deriving DecidableEq

/-- `Rule._extract_domain_from_email` (rules.py lines 104–108). -/
def extractDomainFromEmail (lib : PyLib) (emailAddr : Str) : Str :=
  if '@' ∈ emailAddr then
    pyStrip lib (pyLower lib ((splitAllChar '@' emailAddr).getLastD []))
  else []

/-- `Rule._extract_domain_from_display_name` (rules.py lines 110–115). -/
def extractDomainFromDisplayName (lib : PyLib) (displayName : Str) : Str :=
  ((findAll domainPattern (pyLower lib displayName)).headD [])

/-- `HeaderMismatchRule.check` (rules.py lines 128–146). -/
def headerMismatchCheck (lib : PyLib) (pe : ParsedEmail) : Option RuleEvidence :=
  let headers := pe.headers
  if headers.from_display = [] ∨ headers.from_addr = [] then none
  else
    let fromDomain := extractDomainFromEmail lib headers.from_addr
    let displayDomain := extractDomainFromDisplayName lib headers.from_display
    if displayDomain ≠ [] ∧ fromDomain ≠ [] ∧ displayDomain ≠ fromDomain then
      some ⟨strOf ("HEADER_MISMATCH"),
        strOf ("Display name domain differs from From domain"), 15,
        strOf ("Display name suggests '") ++ displayDomain
          ++ strOf ("' but From address is '") ++ fromDomain ++ strOf ("'"),
        some (strOf ("Display: '") ++ headers.from_display ++ strOf ("', From: '")
          ++ headers.from_addr ++ strOf ("'"))⟩
    else none

/-- `ReplyToMismatchRule.check` (rules.py lines 159–177). -/
def replyToMismatchCheck (lib : PyLib) (pe : ParsedEmail) : Option RuleEvidence :=
  let headers := pe.headers
  if headers.reply_to = [] ∨ headers.from_addr = [] then none
  else
    let fromDomain := extractDomainFromEmail lib headers.from_addr
    let replyDomain := extractDomainFromEmail lib headers.reply_to
    if fromDomain ≠ [] ∧ replyDomain ≠ [] ∧ fromDomain ≠ replyDomain then
      some ⟨strOf ("REPLYTO_MISMATCH"),
        strOf ("Reply-To domain differs from From domain"), 10,
        strOf ("From domain '") ++ fromDomain ++ strOf ("' != Reply-To domain '")
          ++ replyDomain ++ strOf ("'"),
        some (strOf ("From: ") ++ headers.from_addr ++ strOf (", Reply-To: ")
          ++ headers.reply_to)⟩
    else none

/-- `AuthFailureRule.check` (rules.py lines 190–211). -/
def authFailureCheck (lib : PyLib) (pe : ParsedEmail) : Option RuleEvidence :=
  let authResults := pyLower lib pe.headers.authentication_results
  if authResults = [] then none
  else
    let failures :=
      ((AUTH_FAIL_PATTERNS lib).map (fun p => findAll p authResults)).flatten
    if failures ≠ [] then
      some ⟨strOf ("AUTH_FAIL_HINTS"),
        strOf ("Authentication-Results indicates SPF/DKIM/DMARC failure"), 20,
        strOf ("Authentication failures detected: ")
          ++ pyJoin (strOf (", ")) (pyDedupFirst failures),
        some (authResults.take 200)⟩
    else none

/-- `UrgentLanguageRule.check` (rules.py lines 224–245). -/
def urgentLanguageCheck (lib : PyLib) (pe : ParsedEmail) : Option RuleEvidence :=
  let textToCheck :=
    pyLower lib (pe.headers.subject ++ strOf (" ") ++ pe.text_body ++ strOf (" ")
      ++ pe.html_as_text)
  let found :=
    ((URGENT_PATTERNS lib).map (fun p => findAll p textToCheck)).flatten
  if found ≠ [] then
    let uniqueMatches := pyDedupFirst found
    some ⟨strOf ("URGENT_LANGUAGE"), strOf ("Contains urgent or pressure language"), 10,
      strOf ("Urgent language detected: ")
        ++ pyJoin (strOf (", ")) (uniqueMatches.take 5),
      some (pyJoin (strOf (", ")) uniqueMatches)⟩
  else none

/-- `URLShortenerRule.check` (rules.py lines 258–275). -/
def urlShortenerCheck (pe : ParsedEmail) : Option RuleEvidence :=
  let shortenerUrls :=
    (pe.urls.filter (fun u => u.domain ∈ URL_SHORTENERS)).map (fun u => u.domain)
  if shortenerUrls ≠ [] then
    let uniqueShorteners := pyDedupFirst shortenerUrls
    some ⟨strOf ("URL_SHORTENER"), strOf ("Contains URLs from shortening services"), 10,
      strOf ("URL shorteners found: ") ++ pyJoin (strOf (", ")) uniqueShorteners,
      some (pyJoin (strOf (", ")) uniqueShorteners)⟩
  else none

/-- `SuspiciousTLDRule.check` (rules.py lines 288–307). -/
def suspiciousTldCheck (lib : PyLib) (pe : ParsedEmail) : Option RuleEvidence :=
  let suspiciousDomains :=
    pe.urls.filterMap (fun u =>
      let domain := pyLower lib u.domain
      match SUSPICIOUS_TLDS.find? (fun tld => strEndsWith tld domain) with
      | some tld => some (domain ++ strOf (" (") ++ tld ++ strOf (")"))
      | none => none)
  if suspiciousDomains ≠ [] then
    some ⟨strOf ("SUSPICIOUS_TLDS"), strOf ("Contains URLs with suspicious TLDs"), 10,
      strOf ("Suspicious TLDs found: ")
        ++ pyJoin (strOf (", ")) (suspiciousDomains.take 5),
      some (pyJoin (strOf (", ")) suspiciousDomains)⟩
  else none

/-- Whitespace-separated words of a string (Python `s.split()` with no
arguments: runs of whitespace separate words, no empty pieces). -/
def pyWords (lib : PyLib) (l : Str) : List Str :=
  (l.foldr
    (fun c acc =>
      match acc with
      | [] => [(pyIsSpace lib c, [c])]
      | (b, run) :: rest =>
        if pyIsSpace lib c = b then (b, c :: run) :: rest
        else (pyIsSpace lib c, [c]) :: (b, run) :: rest)
    []).filterMap (fun g => if g.1 then none else some g.2)

/-- `UnicodeSpoofRule._has_mixed_scripts` (rules.py lines 346–355): collect
the first word of each alphabetic character's Unicode name; more than one
distinct value → mixed.  `unicodedata.name(char, '').split()[0]` raises
`IndexError` when the name is empty; that exception propagates out of
`check` (and is then caught by the engine). -/
def hasMixedScriptsAux (lib : PyLib) (scripts : List Str) : Str → Except Str Bool
  | [] => .ok false
  | c :: cs =>
    if pyIsAlpha lib c then
      match pyWords lib (lib.unicodeName c) with
      | [] => .error (strOf ("IndexError: list index out of range"))
      | w :: _ =>
        let scripts2 := if w ∈ scripts then scripts else scripts ++ [w]
        if 1 < scripts2.length then .ok true else hasMixedScriptsAux lib scripts2 cs
    else hasMixedScriptsAux lib scripts cs

/-- The URL loop of `UnicodeSpoofRule.check` (rules.py lines 320–333). -/
def unicodeSpoofAux (lib : PyLib) (acc : List Str) :
    List ParsedURL → Except Str (List Str)
  | [] => .ok acc
  | u :: us =>
    if ¬ pyIsAscii u.domain then
      unicodeSpoofAux lib (acc ++ [u.domain ++ strOf (" (non-ASCII)")]) us
    else
      match hasMixedScriptsAux lib [] u.domain with
      | .error e => .error e
      | .ok true =>
        unicodeSpoofAux lib (acc ++ [u.domain ++ strOf (" (mixed-script)")]) us
      | .ok false => unicodeSpoofAux lib acc us

/-- `UnicodeSpoofRule.check` (rules.py lines 320–344). -/
def unicodeSpoofCheck (lib : PyLib) (pe : ParsedEmail) :
    Except Str (Option RuleEvidence) :=
  match unicodeSpoofAux lib [] pe.urls with
  | .error e => .error e
  | .ok suspiciousDomains =>
    if suspiciousDomains ≠ [] then
      .ok (some ⟨strOf ("UNICODE_SPOOF"), strOf ("Potential Unicode spoofing in domains"), 10,
        strOf ("Suspicious domains: ")
          ++ pyJoin (strOf (", ")) (suspiciousDomains.take 3),
        some (pyJoin (strOf (", ")) suspiciousDomains)⟩)
    else .ok none

/-- `NoPersonalizationRule.check` (rules.py lines 368–387). -/
def noPersonalizationCheck (lib : PyLib) (pe : ParsedEmail) : Option RuleEvidence :=
  let textToCheck := pyLower lib (pe.text_body ++ strOf (" ") ++ pe.html_as_text)
  let found :=
    ((GENERIC_GREETINGS lib).map (fun p => findAll p textToCheck)).flatten
  if found ≠ [] then
    let uniqueMatches := pyDedupFirst found
    some ⟨strOf ("NO_PERSONALIZATION"),
      strOf ("Uses generic greetings without personalization"), 5,
      strOf ("Generic greetings: ") ++ pyJoin (strOf (", ")) (uniqueMatches.take 3),
      some (pyJoin (strOf (", ")) uniqueMatches)⟩
  else none

/-- `AttachmentKeywordsRule.check` (rules.py lines 400–420). -/
def attachmentKeywordsCheck (lib : PyLib) (pe : ParsedEmail) : Option RuleEvidence :=
  if pe.urls = [] then none
  else
    let textToCheck :=
      pyLower lib (pe.headers.subject ++ strOf (" ") ++ pe.text_body ++ strOf (" ")
        ++ pe.html_as_text)
    let foundKeywords := ATTACHMENT_KEYWORDS.filter (fun kw => containsSub kw textToCheck)
    if foundKeywords ≠ [] ∧ 0 < pe.urls.length then
      some ⟨strOf ("ATTACHMENT_KEYWORDS"),
        strOf ("Mentions attachments/payments with links present"), 5,
        strOf ("Keywords '") ++ pyJoin (strOf (", ")) (foundKeywords.take 3)
          ++ strOf ("' with ") ++ natToStr pe.urls.length ++ strOf (" URLs"),
        some (pyJoin (strOf (", ")) foundKeywords)⟩
    else none

/-- A detection rule: identifier, description, weight, and the `check`
method; `Except.error` models `check` raising an exception (caught and
logged by the engine). -/
structure Rule where
  rule_id : Str
  description : Str
  weight : Int
  check : ParsedEmail → Except Str (Option RuleEvidence)

/-- The default battery of `RuleEngine.__init__` (rules.py lines 428–442),
with each rule's constructor arguments. -/
def defaultRules (lib : PyLib) : List Rule :=
  [⟨strOf ("HEADER_MISMATCH"), strOf ("Display name domain differs from From domain"),
    15, fun pe => .ok (headerMismatchCheck lib pe)⟩,
   ⟨strOf ("REPLYTO_MISMATCH"), strOf ("Reply-To domain differs from From domain"),
    10, fun pe => .ok (replyToMismatchCheck lib pe)⟩,
   ⟨strOf ("AUTH_FAIL_HINTS"),
    strOf ("Authentication-Results indicates SPF/DKIM/DMARC failure"),
    20, fun pe => .ok (authFailureCheck lib pe)⟩,
   ⟨strOf ("URGENT_LANGUAGE"), strOf ("Contains urgent or pressure language"),
    10, fun pe => .ok (urgentLanguageCheck lib pe)⟩,
   ⟨strOf ("URL_SHORTENER"), strOf ("Contains URLs from shortening services"),
    10, fun pe => .ok (urlShortenerCheck pe)⟩,
   ⟨strOf ("SUSPICIOUS_TLDS"), strOf ("Contains URLs with suspicious TLDs"),
    10, fun pe => .ok (suspiciousTldCheck lib pe)⟩,
   ⟨strOf ("UNICODE_SPOOF"), strOf ("Potential Unicode spoofing in domains"),
    10, fun pe => unicodeSpoofCheck lib pe⟩,
   ⟨strOf ("NO_PERSONALIZATION"), strOf ("Uses generic greetings without personalization"),
    5, fun pe => .ok (noPersonalizationCheck lib pe)⟩,
   ⟨strOf ("ATTACHMENT_KEYWORDS"), strOf ("Mentions attachments/payments with links present"),
    5, fun pe => .ok (attachmentKeywordsCheck lib pe)⟩]

/-- The rule loop of `RuleEngine.analyze_email` (rules.py lines 462–472):
a successful check appending evidence and weight, a `None` result or an
exception contributing nothing (the exception is logged and the loop
continues).  Returns (evidence list, total score). -/
def runRules : List Rule → ParsedEmail → List RuleEvidence × Int
  | [], _ => ([], 0)
  | r :: rs, pe =>
    let rest := runRules rs pe
    match r.check pe with
    | .ok (some result) => (result :: rest.1, result.weight + rest.2)
    | .ok none => rest
    | .error _ => rest

/-- Python `min(a, b)` on numbers (returns the first argument on ties). -/
def pyMinQ (a b : ℚ) : ℚ := if a ≤ b then a else b

/-- Python `max(a, b)` on numbers (returns the first argument on ties). -/
def pyMaxQ (a b : ℚ) : ℚ := if b ≤ a then a else b

/-- Round to two decimal places (Python `round(x, 2)`; CPython rounds the
underlying binary float half-to-even, but no value reachable from
`_calculate_label_and_confidence` lies at a two-decimal tie or within float
error of one, so rounding half-up in exact rational arithmetic coincides). -/
def round2 (q : ℚ) : ℚ := (round (q * 100) : ℤ) / 100

/-- `RuleEngine._calculate_label_and_confidence` (rules.py lines 495–512). -/
def calcLabelAndConfidence (score : Int) (evidenceCount : Nat) : Str × ℚ :=
  let baseConfidence : ℚ := pyMinQ 0.95 (0.5 + (evidenceCount : ℚ) * 0.1)
  if 60 ≤ score then (strOf ("Likely Phishing"), round2 baseConfidence)
  else if 30 ≤ score then (strOf ("Suspicious"), round2 (baseConfidence * 0.8))
  else (strOf ("Likely Safe"), round2 (pyMaxQ 0.6 (1 - (score : ℚ) / 30)))

/-- `RuleEngine.analyze_email` (rules.py lines 444–493) for a given rule
battery: run all rules, cap the score at 100, and compute label and
confidence from the capped score and the evidence count. -/
def analyzeEmail (rules : List Rule) (pe : ParsedEmail) : DetectionResult :=
  let run := runRules rules pe
  let finalScore := min run.2 100
  let lc := calcLabelAndConfidence finalScore run.1.length
  ⟨finalScore, lc.1, lc.2, run.1, rules.length, run.1.length⟩

/-- The module-level convenience `analyze_email` (rules.py lines 544–555):
a fresh default engine. -/
def analyzeEmailDefault (lib : PyLib) (pe : ParsedEmail) : DetectionResult :=
  analyzeEmail (defaultRules lib) pe

/-!
## Concrete instances used by witnesses and counterexamples
-/

/-- A concrete `PyLib` for closed evaluations: identity NFKC and lowercase
beyond ASCII, no non-ASCII word/space/alpha characters, no Unicode names,
no control categories, failing decoders.  (The claims evaluated with it only
exercise ASCII inputs, where the wrappers are exact and these fields are
either unreached or behaviourally accurate.) -/
def tLib0 : PyLib :=
  ⟨id, fun _ => false, fun _ => false, fun _ => false, fun _ => [],
   fun _ => false, id, fun _ => none, fun _ => none, fun _ => none,
   fun _ => .error [], fun _ => .error []⟩

/-- `email.message_from_bytes` on a bare text blob with no header block:
a single-part `text/plain` message whose decoded payload is the whole
input. -/
def plainTextMsg (s : Str) : Msg := ⟨[], false, [], strOf ("text/plain"), .ok s⟩

/-- `tLib0` whose MIME parser accepts bare plain-text input. -/
def plainLib : PyLib := { tLib0 with messageFromBytes := fun s => .ok (plainTextMsg s) }

/-- A `ParsedHeaders` with every field empty. -/
def emptyHeaders : ParsedHeaders := ⟨[], [], [], [], [], [], [], [], [], [], []⟩

/-- A `ParsedEmail` with no content at all. -/
def emptyEmail : ParsedEmail := ⟨emptyHeaders, [], [], [], [], [], 0, 0⟩

/-- A `ParsedEmail` whose text body is exactly `"dear customer"` (fires only
`NO_PERSONALIZATION`, weight 5). -/
def dearEmail : ParsedEmail := ⟨emptyHeaders, strOf ("dear customer"), [], [], [], [], 0, 0⟩

/-- A rule whose `check` always raises. -/
def crashRule : Rule :=
  ⟨strOf ("CRASH"), strOf ("always raises"), 7, fun _ => .error (strOf ("boom"))⟩

/-- 2 MiB of the letter `a`: a plain-text body above `MAX_PARSED_TEXT_SIZE`
but far below the 25 MiB raw ceiling. -/
def bigBody : Str := List.replicate (2 * 1024 * 1024) 'a'

/-- Did `parse_email` succeed? -/
def peIsOk : Except Str ParsedEmail → Bool
  | .ok _ => true
  | .error _ => false

/-- The `parsed_size` field of a successful parse (0 on failure). -/
def peParsedSize : Except Str ParsedEmail → Nat
  | .ok p => p.parsed_size
  | .error _ => 0

/-- The `text_body` length of a successful parse (0 on failure). -/
def peTextLen : Except Str ParsedEmail → Nat
  | .ok p => p.text_body.length
  | .error _ => 0

/-- The `html_as_text` length of a successful parse (0 on failure). -/
def peHtmlAsTextLen : Except Str ParsedEmail → Nat
  | .ok p => p.html_as_text.length
  | .error _ => 0

/-- The warnings of a successful parse ([] on failure). -/
def peWarnings : Except Str ParsedEmail → List Str
  | .ok p => p.security_warnings
  | .error _ => []

/-- The extraction bounds of claim C9, as a predicate over the outcome of
`parse_email` (vacuous on a parse failure). -/
def parseBounds : Except Str ParsedEmail → Prop
  | .ok p => p.urls.length ≤ MAX_URLS_PER_EMAIL ∧ p.headers.received.length ≤ 20
  | .error _ => True

/-- The netloc component `urlparse` assigns to `u` ([] when parsing raises). -/
def parsedNetlocD (lib : PyLib) (u : Str) : Str :=
  match pyUrlparse lib u with
  | .ok p => p.netloc
  | .error _ => []

/-- The path component `urlparse` assigns to `u` ([] when parsing raises). -/
def parsedPathD (lib : PyLib) (u : Str) : Str :=
  match pyUrlparse lib u with
  | .ok p => p.path
  | .error _ => []

/-- The double-percent-encoded URL witnessing non-idempotence of
normalization. -/
def doubleEncodedUrl : Str := strOf ("http://example.com/%2541")

/-- A well-behaved URL for the idempotence witness. -/
def tameUrl : Str := strOf ("http://Example.com/path?a=1&utm_source=x")

/-- A small plain-text body for parse witnesses. -/
def smallContent : Str := strOf ("hello body")

/-- An 8-header-free message for the missing-header witness. -/
def emptyMsg : Msg := plainTextMsg []

/-!
## Theorems

Everything from here on is a lemma or a claim theorem; all definitions are
above.
-/

theorem runRules_snd_eq_sum (rs : List Rule) (pe : ParsedEmail) :
    (runRules rs pe).2 = ((runRules rs pe).1.map (fun ev => ev.weight)).sum := by
  induction rs with
  | nil => simp [runRules]
  | cons r rs ih =>
    simp only [runRules]
    cases h : r.check pe with
    | error e => simpa using ih
    | ok o =>
      cases o with
      | none => simpa using ih
      | some ev => simp [ih]

theorem runRules_length_le (rs : List Rule) (pe : ParsedEmail) :
    (runRules rs pe).1.length ≤ rs.length := by
  induction rs with
  | nil => simp [runRules]
  | cons r rs ih =>
    simp only [runRules]
    cases h : r.check pe with
    | error e => exact Nat.le_succ_of_le ih
    | ok o =>
      cases o with
      | none => exact Nat.le_succ_of_le ih
      | some ev => simpa using ih

theorem runRules_nonneg (rs : List Rule) (pe : ParsedEmail)
    (h : ∀ r ∈ rs, ∀ q ev, r.check q = .ok (some ev) → 0 ≤ ev.weight) :
    0 ≤ (runRules rs pe).2 := by
  induction rs with
  | nil => simp [runRules]
  | cons r rs ih =>
    have hrest := ih (fun r hr => h r (List.mem_cons_of_mem _ hr))
    simp only [runRules]
    cases hc : r.check pe with
    | error e => simpa using hrest
    | ok o =>
      cases o with
      | none => simpa using hrest
      | some ev =>
        have hw := h r (List.mem_cons_self r rs) pe ev hc
        simpa using add_nonneg hw hrest

theorem runRules_le_weight_sum (rs : List Rule) (pe : ParsedEmail)
    (hf : ∀ r ∈ rs, ∀ q ev, r.check q = .ok (some ev) → ev.weight = r.weight)
    (h0 : ∀ r ∈ rs, 0 ≤ r.weight) :
    (runRules rs pe).2 ≤ (rs.map (fun r => r.weight)).sum := by
  induction rs with
  | nil => simp [runRules]
  | cons r rs ih =>
    have hrest := ih (fun r hr => hf r (List.mem_cons_of_mem _ hr))
      (fun r hr => h0 r (List.mem_cons_of_mem _ hr))
    simp only [runRules, List.map_cons, List.sum_cons]
    cases hc : r.check pe with
    | error e =>
      simpa using le_add_of_nonneg_of_le (h0 r (List.mem_cons_self r rs)) hrest
    | ok o =>
      cases o with
      | none =>
        simpa using le_add_of_nonneg_of_le (h0 r (List.mem_cons_self r rs)) hrest
      | some ev =>
        have hw := hf r (List.mem_cons_self r rs) pe ev hc
        simpa [hw] using hrest

theorem runRules_skip_error (rules1 rules2 : List Rule) (bad : Rule)
    (pe : ParsedEmail) (hbad : ∀ q, ∃ e, bad.check q = .error e) :
    runRules (rules1 ++ bad :: rules2) pe = runRules (rules1 ++ rules2) pe := by
  induction rules1 with
  | nil =>
    obtain ⟨e, he⟩ := hbad pe
    simp [runRules, he]
  | cons r rs ih =>
    rw [List.cons_append, List.cons_append]
    cases hc : r.check pe with
    | error e => simp only [runRules, hc]; exact ih
    | ok o =>
      cases o with
      | none => simp only [runRules, hc]; exact ih
      | some ev => simp only [runRules, hc, ih]

theorem headerMismatchCheck_weight (lib : PyLib) (pe : ParsedEmail)
    (ev : RuleEvidence) (h : headerMismatchCheck lib pe = some ev) :
    ev.weight = 15 := by
  simp only [headerMismatchCheck] at h
  split at h
  · exact absurd h (by simp)
  · split at h
    · cases h; rfl
    · exact absurd h (by simp)

theorem replyToMismatchCheck_weight (lib : PyLib) (pe : ParsedEmail)
    (ev : RuleEvidence) (h : replyToMismatchCheck lib pe = some ev) :
    ev.weight = 10 := by
  simp only [replyToMismatchCheck] at h
  split at h
  · exact absurd h (by simp)
  · split at h
    · cases h; rfl
    · exact absurd h (by simp)

theorem authFailureCheck_weight (lib : PyLib) (pe : ParsedEmail)
    (ev : RuleEvidence) (h : authFailureCheck lib pe = some ev) :
    ev.weight = 20 := by
  simp only [authFailureCheck] at h
  split at h
  · exact absurd h (by simp)
  · split at h
    · cases h; rfl
    · exact absurd h (by simp)

theorem urgentLanguageCheck_weight (lib : PyLib) (pe : ParsedEmail)
    (ev : RuleEvidence) (h : urgentLanguageCheck lib pe = some ev) :
    ev.weight = 10 := by
  simp only [urgentLanguageCheck] at h
  split at h
  · cases h; rfl
  · exact absurd h (by simp)

theorem urlShortenerCheck_weight (pe : ParsedEmail)
    (ev : RuleEvidence) (h : urlShortenerCheck pe = some ev) :
    ev.weight = 10 := by
  simp only [urlShortenerCheck] at h
  split at h
  · cases h; rfl
  · exact absurd h (by simp)

theorem suspiciousTldCheck_weight (lib : PyLib) (pe : ParsedEmail)
    (ev : RuleEvidence) (h : suspiciousTldCheck lib pe = some ev) :
    ev.weight = 10 := by
  simp only [suspiciousTldCheck] at h
  split at h
  · cases h; rfl
  · exact absurd h (by simp)

theorem unicodeSpoofCheck_weight (lib : PyLib) (pe : ParsedEmail)
    (ev : RuleEvidence) (h : unicodeSpoofCheck lib pe = .ok (some ev)) :
    ev.weight = 10 := by
  simp only [unicodeSpoofCheck] at h
  split at h
  · exact absurd h (by simp)
  · split at h
    · cases h; rfl
    · exact absurd h (by simp)

theorem noPersonalizationCheck_weight (lib : PyLib) (pe : ParsedEmail)
    (ev : RuleEvidence) (h : noPersonalizationCheck lib pe = some ev) :
    ev.weight = 5 := by
  simp only [noPersonalizationCheck] at h
  split at h
  · cases h; rfl
  · exact absurd h (by simp)

theorem attachmentKeywordsCheck_weight (lib : PyLib) (pe : ParsedEmail)
    (ev : RuleEvidence) (h : attachmentKeywordsCheck lib pe = some ev) :
    ev.weight = 5 := by
  simp only [attachmentKeywordsCheck] at h
  split at h
  · exact absurd h (by simp)
  · split at h
    · cases h; rfl
    · exact absurd h (by simp)

theorem defaultRules_weight_faithful (lib : PyLib) :
    ∀ r ∈ defaultRules lib, ∀ q ev, r.check q = .ok (some ev) → ev.weight = r.weight := by
  intro r hr q ev h
  simp only [defaultRules, List.mem_cons, List.not_mem_nil, or_false] at hr
  rcases hr with h9 | h9 | h9 | h9 | h9 | h9 | h9 | h9 | h9 <;> subst h9
  · exact headerMismatchCheck_weight lib q ev (Except.ok.inj h)
  · exact replyToMismatchCheck_weight lib q ev (Except.ok.inj h)
  · exact authFailureCheck_weight lib q ev (Except.ok.inj h)
  · exact urgentLanguageCheck_weight lib q ev (Except.ok.inj h)
  · exact urlShortenerCheck_weight q ev (Except.ok.inj h)
  · exact suspiciousTldCheck_weight lib q ev (Except.ok.inj h)
  · exact unicodeSpoofCheck_weight lib q ev h
  · exact noPersonalizationCheck_weight lib q ev (Except.ok.inj h)
  · exact attachmentKeywordsCheck_weight lib q ev (Except.ok.inj h)

theorem defaultRules_weights (lib : PyLib) :
    (defaultRules lib).map (fun r => r.weight) = [15, 10, 20, 10, 10, 10, 10, 5, 5] := rfl

theorem defaultRules_weights_nonneg (lib : PyLib) :
    ∀ r ∈ defaultRules lib, 0 ≤ r.weight := by
  intro r hr
  simp only [defaultRules, List.mem_cons, List.not_mem_nil, or_false] at hr
  rcases hr with h9 | h9 | h9 | h9 | h9 | h9 | h9 | h9 | h9 <;> subst h9 <;> norm_num

theorem pyMinQ_eq_min (a b : ℚ) : pyMinQ a b = min a b := by
  rw [pyMinQ, min_def]

theorem pyMaxQ_eq_max (a b : ℚ) : pyMaxQ a b = max a b := by
  by_cases h : b ≤ a
  · rw [pyMaxQ, if_pos h, max_eq_left h]
  · rw [pyMaxQ, if_neg h, max_eq_right (le_of_not_le h)]

/-- C3 (counterexample): on the empty e-mail the default engine produces a
score below 30, yet the label is not `"Safe"` — indeed it is none of
`"Safe"`/`"Suspicious"`/`"Phishing"` (it is `"Likely Safe"`): the claim's
label vocabulary does not match the code. -/
theorem c3_counterexample :
    (analyzeEmailDefault tLib0 emptyEmail).score < 30 ∧
    (analyzeEmailDefault tLib0 emptyEmail).label ≠ strOf ("Safe") ∧
    (analyzeEmailDefault tLib0 emptyEmail).label ∉
      [strOf ("Safe"), strOf ("Suspicious"), strOf ("Phishing")] := by
  decide

/-- C3 (amended): for every battery and every parsed e-mail, the label of
`analyze_email` is determined by the fixed thresholds — `score < 30` gives
`"Likely Safe"`, `30 ≤ score < 60` gives `"Suspicious"`, `score ≥ 60` gives
`"Likely Phishing"` — and the label is always one of exactly these three
strings. -/
theorem c3_label_thresholds (rules : List Rule) (pe : ParsedEmail) :
    ((analyzeEmail rules pe).label =
      if 60 ≤ (analyzeEmail rules pe).score then strOf ("Likely Phishing")
      else if 30 ≤ (analyzeEmail rules pe).score then strOf ("Suspicious")
      else strOf ("Likely Safe")) ∧
    (analyzeEmail rules pe).label ∈
      [strOf ("Likely Safe"), strOf ("Suspicious"), strOf ("Likely Phishing")] := by
  constructor
  · simp only [analyzeEmail, calcLabelAndConfidence]
    by_cases h60 : (60 : Int) ≤ min (runRules rules pe).2 100
    · simp [h60]
    · by_cases h30 : (30 : Int) ≤ min (runRules rules pe).2 100
      · simp [h60, h30]
      · simp [h60, h30]
  · simp only [analyzeEmail, calcLabelAndConfidence]
    by_cases h60 : (60 : Int) ≤ min (runRules rules pe).2 100
    · simp [h60]
    · by_cases h30 : (30 : Int) ≤ min (runRules rules pe).2 100
      · simp [h60, h30]
      · simp [h60, h30]

/-- C4 (counterexample): the e-mail whose body is exactly `"dear customer"`
fires only `NO_PERSONALIZATION` (weight 5), so the engine produces the pair
(score 5, 1 rule fired) in the Safe tier — and its confidence is
`round(max(0.6, 1 − 5/30), 2) = 0.83`, not the claim's un-rounded
`max(0.6, 1 − 5/30) = 5/6`. -/
theorem c4_counterexample :
    (analyzeEmailDefault tLib0 dearEmail).score = 5 ∧
    (analyzeEmailDefault tLib0 dearEmail).score < 30 ∧
    (analyzeEmailDefault tLib0 dearEmail).confidence ≠
      max 0.6 (1 - ((analyzeEmailDefault tLib0 dearEmail).score : ℚ) / 30) := by
  have hs : (analyzeEmailDefault tLib0 dearEmail).score = 5 := by decide
  have hrun : (runRules (defaultRules tLib0) dearEmail).2 = 5 := by decide
  have hlen : (runRules (defaultRules tLib0) dearEmail).1.length = 1 := by decide
  have h1 : (analyzeEmailDefault tLib0 dearEmail).confidence
      = (calcLabelAndConfidence (min (5 : Int) 100) 1).2 := by
    simp only [analyzeEmailDefault, analyzeEmail]
    rw [hrun, hlen]
  have hc : (analyzeEmailDefault tLib0 dearEmail).confidence = 83 / 100 := by
    rw [h1, min_eq_left (by norm_num : (5 : Int) ≤ 100)]
    rw [calcLabelAndConfidence]
    norm_num [pyMaxQ, round2, round_eq]
  refine ⟨hs, by decide, ?_⟩
  rw [hc, hs]
  have hm : max (0.6 : ℚ) (1 - ((5 : Int) : ℚ) / 30) = 5 / 6 := by
    rw [max_eq_right] <;> norm_num
  rw [hm]
  norm_num

/-- C4 (amended): the confidence equals the claim's tier formulas *rounded
to two decimal places* (Python's `round(confidence, 2)` at rules.py line
512): base = `min(0.95, 0.5 + 0.1·rules_fired)`; Phishing tier
`round2(base)`, Suspicious tier `round2(base·0.8)`, Safe tier
`round2(max(0.6, 1 − score/30))`. -/
theorem c4_confidence_formula (rules : List Rule) (pe : ParsedEmail) :
    (analyzeEmail rules pe).confidence =
      if 60 ≤ (analyzeEmail rules pe).score then
        round2 (min 0.95 (0.5 + ((analyzeEmail rules pe).rules_fired : ℚ) * 0.1))
      else if 30 ≤ (analyzeEmail rules pe).score then
        round2 ((min 0.95 (0.5 + ((analyzeEmail rules pe).rules_fired : ℚ) * 0.1)) * 0.8)
      else
        round2 (max 0.6 (1 - ((analyzeEmail rules pe).score : ℚ) / 30)) := by
  simp only [analyzeEmail, calcLabelAndConfidence]
  by_cases h60 : (60 : Int) ≤ min (runRules rules pe).2 100
  · simp [h60, pyMinQ_eq_min, pyMaxQ_eq_max]
  · by_cases h30 : (30 : Int) ≤ min (runRules rules pe).2 100
    · simp [h60, h30, pyMinQ_eq_min, pyMaxQ_eq_max]
    · simp [h60, h30, pyMinQ_eq_min, pyMaxQ_eq_max]

/-- C5: for every parsed e-mail, the default engine's score is the sum of
the weights recorded in the evidence of the fired rules, capped at 100; in
particular it always lies between 0 and 100. -/
theorem c5_score_capped_sum (lib : PyLib) (pe : ParsedEmail) :
    (analyzeEmailDefault lib pe).score =
      min (((analyzeEmailDefault lib pe).evidence.map (fun ev => ev.weight)).sum) 100 ∧
    0 ≤ (analyzeEmailDefault lib pe).score ∧
    (analyzeEmailDefault lib pe).score ≤ 100 := by
  have hsum := runRules_snd_eq_sum (defaultRules lib) pe
  have hnn : 0 ≤ (runRules (defaultRules lib) pe).2 :=
    runRules_nonneg _ _ (fun r hr q ev h => by
      rw [defaultRules_weight_faithful lib r hr q ev h]
      exact defaultRules_weights_nonneg lib r hr)
  refine ⟨?_, ?_, ?_⟩
  · simp only [analyzeEmailDefault, analyzeEmail]
    rw [hsum]
  · simp only [analyzeEmailDefault, analyzeEmail]
    exact le_min hnn (by norm_num)
  · simp only [analyzeEmailDefault, analyzeEmail]
    exact min_le_right _ _

/-- C6: for every battery and every parsed e-mail, `rules_fired` equals the
length of the evidence list and is at most the number of rules evaluated
(the `rules_checked` field). -/
theorem c6_fired_invariant (rules : List Rule) (pe : ParsedEmail) :
    (analyzeEmail rules pe).rules_fired = (analyzeEmail rules pe).evidence.length ∧
    (analyzeEmail rules pe).rules_fired ≤ (analyzeEmail rules pe).rules_checked := by
  refine ⟨rfl, ?_⟩
  simp only [analyzeEmail]
  exact runRules_length_le rules pe

/-- C8: a rule whose `check` always raises contributes no evidence and no
weight; the engine skips it, evaluates all other rules identically, and
still counts it in `rules_checked`; the overall result (evidence, score,
label, confidence, rules_fired) is exactly that of the battery without the
failing rule. -/
theorem c8_failing_rule_skipped (rules1 rules2 : List Rule) (bad : Rule)
    (pe : ParsedEmail) (hbad : ∀ q, ∃ e, bad.check q = .error e) :
    (analyzeEmail (rules1 ++ bad :: rules2) pe).evidence =
      (analyzeEmail (rules1 ++ rules2) pe).evidence ∧
    (analyzeEmail (rules1 ++ bad :: rules2) pe).score =
      (analyzeEmail (rules1 ++ rules2) pe).score ∧
    (analyzeEmail (rules1 ++ bad :: rules2) pe).label =
      (analyzeEmail (rules1 ++ rules2) pe).label ∧
    (analyzeEmail (rules1 ++ bad :: rules2) pe).confidence =
      (analyzeEmail (rules1 ++ rules2) pe).confidence ∧
    (analyzeEmail (rules1 ++ bad :: rules2) pe).rules_fired =
      (analyzeEmail (rules1 ++ rules2) pe).rules_fired ∧
    (analyzeEmail (rules1 ++ bad :: rules2) pe).rules_checked =
      rules1.length + rules2.length + 1 := by
  have hrun := runRules_skip_error rules1 rules2 bad pe hbad
  refine ⟨?_, ?_, ?_, ?_, ?_, ?_⟩ <;> simp only [analyzeEmail, hrun]
  rw [List.length_append, List.length_cons]
  omega

/-- C8 (witness): with the always-raising `crashRule` as the whole battery,
the result matches the empty battery except that `rules_checked` counts the
failed rule. -/
theorem c8_failing_rule_skipped_witness :
    (analyzeEmail [crashRule] emptyEmail).evidence =
      (analyzeEmail [] emptyEmail).evidence ∧
    (analyzeEmail [crashRule] emptyEmail).score =
      (analyzeEmail [] emptyEmail).score ∧
    (analyzeEmail [crashRule] emptyEmail).label =
      (analyzeEmail [] emptyEmail).label ∧
    (analyzeEmail [crashRule] emptyEmail).confidence =
      (analyzeEmail [] emptyEmail).confidence ∧
    (analyzeEmail [crashRule] emptyEmail).rules_fired =
      (analyzeEmail [] emptyEmail).rules_fired ∧
    (analyzeEmail [crashRule] emptyEmail).rules_checked = 1 := by
  have h := c8_failing_rule_skipped [] [] crashRule emptyEmail
    (fun _ => ⟨strOf ("boom"), rfl⟩)
  simpa using h

/-- C10: the default battery's declared weights are 15, 10, 20, 10, 10, 10,
10, 5, 5, summing to 95; hence the total of the fired weights never exceeds
95, the 100-point cap never binds, and the reported score equals the uncapped
sum of the evidence weights. -/
theorem c10_default_battery_uncapped (lib : PyLib) (pe : ParsedEmail) :
    ((defaultRules lib).map (fun r => r.weight)).sum = 95 ∧
    (analyzeEmailDefault lib pe).score =
      ((analyzeEmailDefault lib pe).evidence.map (fun ev => ev.weight)).sum ∧
    (analyzeEmailDefault lib pe).score ≤ 95 := by
  have hle : (runRules (defaultRules lib) pe).2 ≤ 95 := by
    have h := runRules_le_weight_sum (defaultRules lib) pe
      (defaultRules_weight_faithful lib) (defaultRules_weights_nonneg lib)
    simpa [defaultRules_weights] using h
  have hsum := runRules_snd_eq_sum (defaultRules lib) pe
  refine ⟨by simp [defaultRules_weights], ?_, ?_⟩
  · simp only [analyzeEmailDefault, analyzeEmail]
    rw [min_eq_left (by linarith : (runRules (defaultRules lib) pe).2 ≤ (100 : Int))]
    exact hsum
  · simp only [analyzeEmailDefault, analyzeEmail]
    exact le_trans (min_le_left _ _) hle

theorem cleanHeaderValue_nil (lib : PyLib) : cleanHeaderValue lib [] = [] := by
  simp [cleanHeaderValue]

theorem safeHeader_fst_of_missing (lib : PyLib) (msg : Msg) (name : Str)
    (ws : List Str) (h : msg.get name = none) :
    (safeHeader lib msg name ws).1 = [] := by
  simp [safeHeader, h, cleanHeaderValue, MAX_HEADER_SIZE]

theorem parseAddress_nil (lib : PyLib) : parseAddress lib [] = ([], []) := by
  simp [parseAddress]

/-- C7: header extraction is total over absent headers — when a header from
the fixed allowlist is missing from the message, the corresponding
`ParsedHeaders` field is the empty string (for `From`, both the address and
the display name).  The extraction functions are total Lean functions, so no
exception can reach the caller in the model. -/
theorem c7_missing_headers (lib : PyLib) (msg : Msg) (ws : List Str) :
    (msg.get (strOf ("From")) = none →
      (extractHeaders lib msg ws).1.from_addr = [] ∧
      (extractHeaders lib msg ws).1.from_display = []) ∧
    (msg.get (strOf ("To")) = none → (extractHeaders lib msg ws).1.to_addr = []) ∧
    (msg.get (strOf ("Reply-To")) = none →
      (extractHeaders lib msg ws).1.reply_to = []) ∧
    (msg.get (strOf ("Return-Path")) = none →
      (extractHeaders lib msg ws).1.return_path = []) ∧
    (msg.get (strOf ("Subject")) = none →
      (extractHeaders lib msg ws).1.subject = []) ∧
    (msg.get (strOf ("Date")) = none → (extractHeaders lib msg ws).1.date = []) ∧
    (msg.get (strOf ("Authentication-Results")) = none →
      (extractHeaders lib msg ws).1.authentication_results = []) ∧
    (msg.get (strOf ("Message-ID")) = none →
      (extractHeaders lib msg ws).1.message_id = []) := by
  refine ⟨?_, ?_, ?_, ?_, ?_, ?_, ?_, ?_⟩ <;> intro h <;>
    simp only [extractHeaders] <;>
    simp [safeHeader_fst_of_missing lib msg _ _ h, parseAddress_nil]

/-- C7 (witness): on a message with no headers at all, every allowlisted
field is empty. -/
theorem c7_missing_headers_witness :
    (extractHeaders tLib0 emptyMsg []).1.from_addr = [] ∧
    (extractHeaders tLib0 emptyMsg []).1.from_display = [] ∧
    (extractHeaders tLib0 emptyMsg []).1.to_addr = [] ∧
    (extractHeaders tLib0 emptyMsg []).1.reply_to = [] ∧
    (extractHeaders tLib0 emptyMsg []).1.return_path = [] ∧
    (extractHeaders tLib0 emptyMsg []).1.subject = [] ∧
    (extractHeaders tLib0 emptyMsg []).1.date = [] ∧
    (extractHeaders tLib0 emptyMsg []).1.authentication_results = [] ∧
    (extractHeaders tLib0 emptyMsg []).1.message_id = [] := by
  have h := c7_missing_headers tLib0 emptyMsg []
  exact ⟨(h.1 (by decide)).1, (h.1 (by decide)).2, h.2.1 (by decide),
    h.2.2.1 (by decide), h.2.2.2.1 (by decide), h.2.2.2.2.1 (by decide),
    h.2.2.2.2.2.1 (by decide), h.2.2.2.2.2.2.1 (by decide),
    h.2.2.2.2.2.2.2 (by decide)⟩

theorem takeReceived_length_le (lib : PyLib) (acc : List Str) (rs : List Str)
    (h : acc.length ≤ 20) : (takeReceived lib acc rs).length ≤ 20 := by
  induction rs generalizing acc with
  | nil => simpa [takeReceived] using h
  | cons r rs ih =>
    simp only [takeReceived]
    split
    · exact h
    · rename_i hlt
      apply ih
      simp only [List.length_append, List.length_cons, List.length_nil]
      omega

theorem extractUrlsLoop_length_le (lib : PyLib) (content : Str)
    (st : List ParsedURL × List Str × List Str) (ms : List (Nat × Str))
    (h : st.1.length ≤ MAX_URLS_PER_EMAIL) :
    (extractUrlsLoop lib content st ms).1.length ≤ MAX_URLS_PER_EMAIL := by
  induction ms generalizing st with
  | nil =>
    obtain ⟨urls, seen, ws⟩ := st
    simpa [extractUrlsLoop] using h
  | cons m rest ih =>
    obtain ⟨urls, seen, ws⟩ := st
    obtain ⟨pos, mm⟩ := m
    simp only [extractUrlsLoop]
    split
    · simpa using h
    · rename_i hlt
      split
      · exact ih _ h
      · apply ih
        simp only [List.length_append, List.length_cons, List.length_nil]
        simp only [MAX_URLS_PER_EMAIL] at hlt ⊢
        omega

theorem extractUrls_foldl_le (lib : PyLib) (ctxs : List Str)
    (st : List ParsedURL × List Str × List Str)
    (h : st.1.length ≤ MAX_URLS_PER_EMAIL) :
    ((ctxs.foldl
      (fun st content =>
        if content = [] then st
        else extractUrlsLoop lib content st (findIter (urlRegex lib) content))
      st).1.length ≤ MAX_URLS_PER_EMAIL) := by
  induction ctxs generalizing st with
  | nil => simpa using h
  | cons c cs ih =>
    simp only [List.foldl_cons]
    apply ih
    split
    · exact h
    · exact extractUrlsLoop_length_le lib c st _ h

theorem extractUrls_length_le (lib : PyLib) (textBody htmlBody : Str)
    (headers : ParsedHeaders) (ws : List Str) :
    (extractUrls lib textBody htmlBody headers ws).1.length ≤ MAX_URLS_PER_EMAIL := by
  simp only [extractUrls]
  exact extractUrls_foldl_le lib _ _ (by simp)

/-- C9: every successfully parsed e-mail satisfies the extraction bounds —
at most `MAX_URLS_PER_EMAIL` (500) extracted URLs and at most 20 retained
`Received` headers. -/
theorem c9_extraction_bounds (lib : PyLib) (content : Str) :
    parseBounds (parseEmail lib content) := by
  rw [parseEmail]
  split
  · trivial
  · split
    · trivial
    · rename_i msg heq
      refine ⟨?_, ?_⟩
      · exact extractUrls_length_le lib _ _ _ _
      · simp only [extractHeaders]
        exact takeReceived_length_le lib [] _ (by simp)

theorem dropWhile_eq_self_of_false {p : Char → Bool} (l : Str)
    (h : ∀ c ∈ l, p c = false) : l.dropWhile p = l := by
  induction l with
  | nil => rfl
  | cons c cs ih =>
    rw [List.dropWhile_cons, h c (List.mem_cons_self c cs)]
    simp

theorem pyLstrip_eq_self (lib : PyLib) (l : Str)
    (h : ∀ c ∈ l, pyIsSpace lib c = false) : pyLstrip lib l = l :=
  dropWhile_eq_self_of_false l h

theorem pyRstrip_eq_self (lib : PyLib) (l : Str)
    (h : ∀ c ∈ l, pyIsSpace lib c = false) : pyRstrip lib l = l := by
  rw [pyRstrip, dropWhile_eq_self_of_false l.reverse
    (fun c hc => h c (List.mem_reverse.mp hc)), List.reverse_reverse]

theorem pyStrip_eq_self (lib : PyLib) (l : Str)
    (h : ∀ c ∈ l, pyIsSpace lib c = false) : pyStrip lib l = l := by
  rw [pyStrip, pyLstrip_eq_self lib l h, pyRstrip_eq_self lib l h]

theorem splitAllChar_of_not_mem (sep : Char) (l : Str) (h : sep ∉ l) :
    splitAllChar sep l = [l] := by
  induction l with
  | nil => rfl
  | cons c cs ih =>
    have hcs : sep ∉ cs := fun hm => h (List.mem_cons_of_mem _ hm)
    have hc : ¬(c = sep) := fun hh => h (hh ▸ List.mem_cons_self c cs)
    rw [splitAllChar, ih hcs]
    simp [hc]

theorem collapseNewlinesAux_of_no_newline (l : Str) (h : '\n' ∉ l) :
    collapseNewlinesAux 0 l = l := by
  induction l with
  | nil => rfl
  | cons c cs ih =>
    have hcs : '\n' ∉ cs := fun hm => h (List.mem_cons_of_mem _ hm)
    have hc : ¬(c = '\n') := fun hh => h (hh ▸ List.mem_cons_self c cs)
    rw [collapseNewlinesAux, if_neg hc, ih hcs]
    simp

theorem pyJoin_single (sep : Str) (x : Str) : pyJoin sep [x] = x := by
  simp [pyJoin, List.intercalate]

theorem cleanTextContent_id (lib : PyLib) (l : Str) (hn : lib.nfkc l = l)
    (h1 : '\n' ∉ l) (h2 : ∀ c ∈ l, pyIsSpace lib c = false) :
    cleanTextContent lib l = l := by
  by_cases h0 : l = []
  · simp [cleanTextContent, h0]
  · rw [cleanTextContent, if_neg h0]
    simp only [hn, splitAllChar_of_not_mem '\n' l h1, List.map_cons, List.map_nil,
      pyRstrip_eq_self lib l h2, pyJoin_single, collapseNewlines,
      collapseNewlinesAux_of_no_newline l h1, pyStrip_eq_self lib l h2]

theorem bigBody_mem (c : Char) (hc : c ∈ bigBody) : c = 'a' :=
  List.eq_of_mem_replicate hc

theorem bigBody_length : bigBody.length = 2 * 1024 * 1024 :=
  List.length_replicate _ _

theorem cleanTextContent_bigBody : cleanTextContent plainLib bigBody = bigBody := by
  apply cleanTextContent_id
  · rfl
  · intro hm
    exact absurd (bigBody_mem _ hm) (by decide)
  · intro c hc
    rw [bigBody_mem c hc]
    decide

theorem matchEnd_urlRegex_nil (lib : PyLib) (prev : Option Char) :
    matchEnd (urlRegex lib) prev [] = none := rfl

theorem matchEnd_urlRegex_a (lib : PyLib) (prev : Option Char) (cs : Str) :
    matchEnd (urlRegex lib) prev ('a' :: cs) = none := rfl

theorem findAllAux_urlRegex_allA (lib : PyLib) (fuel : Nat) :
    ∀ (prev : Option Char) (pos : Nat) (l : Str), (∀ c ∈ l, c = 'a') →
      findAllAux (urlRegex lib) fuel prev pos l = [] := by
  induction fuel with
  | zero => intro prev pos l _; rfl
  | succ fuel ih =>
    intro prev pos l h
    cases l with
    | nil => rfl
    | cons c cs =>
      have hc := h c (List.mem_cons_self c cs)
      subst hc
      rw [findAllAux, matchEnd_urlRegex_a]
      exact ih _ _ cs (fun c hc => h c (List.mem_cons_of_mem _ hc))

theorem findIter_urlRegex_bigBody : findIter (urlRegex plainLib) bigBody = [] := by
  rw [findIter]
  exact findAllAux_urlRegex_allA plainLib _ _ _ _ (fun c hc => bigBody_mem c hc)

theorem parseEmail_isOk (lib : PyLib) (content : Str) (msg : Msg)
    (hraw : content.length ≤ RAW_SIZE_LIMIT)
    (hmsg : lib.messageFromBytes content = .ok msg) :
    peIsOk (parseEmail lib content) = true := by
  rw [parseEmail, if_neg (not_lt.mpr hraw), hmsg]
  rfl

theorem parseEmail_parsedSize (lib : PyLib) (content : Str) (msg : Msg)
    (hraw : content.length ≤ RAW_SIZE_LIMIT)
    (hmsg : lib.messageFromBytes content = .ok msg) :
    peParsedSize (parseEmail lib content) =
      (extractBody lib msg (extractHeaders lib msg []).2).1.1.length +
      (extractBody lib msg (extractHeaders lib msg []).2).1.2.1.length := by
  rw [parseEmail, if_neg (not_lt.mpr hraw), hmsg]
  rfl

/-- C1 (counterexample): a bare plain-text e-mail of 2 MiB (below the 25 MiB
raw ceiling) parses successfully, but the `parsed_size` field of the
returned `ParsedEmail` is 2 MiB — above `MAX_PARSED_TEXT_SIZE` (1 MiB):
`parse_email` records the *pre-truncation* size (parser.py line 155) and
never updates it after truncating the bodies (lines 158–163). -/
theorem c1_counterexample :
    peIsOk (parseEmail plainLib bigBody) = true ∧
    MAX_PARSED_TEXT_SIZE < peParsedSize (parseEmail plainLib bigBody) := by
  have hraw : bigBody.length ≤ RAW_SIZE_LIMIT := by
    rw [bigBody_length]
    norm_num [RAW_SIZE_LIMIT]
  have hmsg : plainLib.messageFromBytes bigBody = .ok (plainTextMsg bigBody) := rfl
  have h0 := parseEmail_parsedSize plainLib bigBody (plainTextMsg bigBody) hraw hmsg
  have hh : (extractHeaders plainLib (plainTextMsg bigBody) []).2 = [] := rfl
  rw [hh] at h0
  have hb : extractBody plainLib (plainTextMsg bigBody) [] = ((bigBody, [], []), []) := by
    simp [extractBody, plainTextMsg, cleanTextContent_bigBody]
  have hbt : (extractBody plainLib (plainTextMsg bigBody) []).1.1 = bigBody := by
    rw [hb]
  have hbh : (extractBody plainLib (plainTextMsg bigBody) []).1.2.1 = ([] : Str) := by
    rw [hb]
  rw [hbt, hbh, bigBody_length] at h0
  simp only [List.length_nil, Nat.add_zero] at h0
  constructor
  · exact parseEmail_isOk plainLib bigBody (plainTextMsg bigBody) hraw hmsg
  · rw [h0]
    norm_num [MAX_PARSED_TEXT_SIZE]

/-- C1 (amended): below the raw ceiling, a parseable input always yields a
`ParsedEmail` (truncation never rejects); when the combined extracted size
exceeds `MAX_PARSED_TEXT_SIZE`, `text_body` and `html_as_text` are each
truncated to at most half the limit and a truncation warning is recorded —
but the `parsed_size` field keeps the pre-truncation size, so
`parsed_size ≤ MAX_PARSED_TEXT_SIZE` holds only in the non-truncated case. -/
theorem c1_truncation_behaviour (lib : PyLib) (content : Str) (msg : Msg)
    (hraw : content.length ≤ RAW_SIZE_LIMIT)
    (hmsg : lib.messageFromBytes content = .ok msg) :
    peIsOk (parseEmail lib content) = true ∧
    (peParsedSize (parseEmail lib content) ≤ MAX_PARSED_TEXT_SIZE ∨
      (peTextLen (parseEmail lib content) ≤ MAX_PARSED_TEXT_SIZE / 2 ∧
       peHtmlAsTextLen (parseEmail lib content) ≤ MAX_PARSED_TEXT_SIZE / 2 ∧
       (strOf ("Parsed content truncated: ")
          ++ natToStr (peParsedSize (parseEmail lib content))
          ++ strOf (" > ") ++ natToStr MAX_PARSED_TEXT_SIZE) ∈
         peWarnings (parseEmail lib content))) := by
  rw [parseEmail, if_neg (not_lt.mpr hraw), hmsg]
  by_cases ht : MAX_PARSED_TEXT_SIZE <
      (extractBody lib msg (extractHeaders lib msg []).2).1.1.length +
      (extractBody lib msg (extractHeaders lib msg []).2).1.2.1.length
  · simp only [peIsOk, peParsedSize, peTextLen, peHtmlAsTextLen, peWarnings,
      if_pos ht]
    refine ⟨trivial, Or.inr ⟨?_, ?_, ?_⟩⟩
    · simp [List.length_take]
    · simp [List.length_take]
    · exact List.mem_append_right _ (List.mem_singleton_self _)
  · simp only [peIsOk, peParsedSize, peTextLen, peHtmlAsTextLen, peWarnings,
      if_neg ht]
    exact ⟨trivial, Or.inl (le_of_not_lt ht)⟩

/-- C1 (witness): the amended statement applied to a small concrete
plain-text e-mail. -/
theorem c1_truncation_behaviour_witness :
    peIsOk (parseEmail plainLib smallContent) = true ∧
    (peParsedSize (parseEmail plainLib smallContent) ≤ MAX_PARSED_TEXT_SIZE ∨
      (peTextLen (parseEmail plainLib smallContent) ≤ MAX_PARSED_TEXT_SIZE / 2 ∧
       peHtmlAsTextLen (parseEmail plainLib smallContent) ≤ MAX_PARSED_TEXT_SIZE / 2 ∧
       (strOf ("Parsed content truncated: ")
          ++ natToStr (peParsedSize (parseEmail plainLib smallContent))
          ++ strOf (" > ") ++ natToStr MAX_PARSED_TEXT_SIZE) ∈
         peWarnings (parseEmail plainLib smallContent))) :=
  c1_truncation_behaviour plainLib smallContent (plainTextMsg smallContent)
    (by decide) rfl

/-- C2 (counterexample): `"http://example.com/%2541"` is a full `URL_REGEX`
match (so it is extractable from e-mail content), yet normalization is not
idempotent on it: percent-decoding the path turns `%2541` into `%41`, and a
second normalization decodes further to `A`. -/
theorem c2_counterexample :
    matchEnd (urlRegex tLib0) none doubleEncodedUrl = some doubleEncodedUrl.length ∧
    normalizeUrl tLib0 (normalizeUrl tLib0 doubleEncodedUrl) ≠
      normalizeUrl tLib0 doubleEncodedUrl := by
  decide

theorem isPre_iff (p l : Str) : isPre p l = true ↔ ∃ t, l = p ++ t := by
  induction p generalizing l with
  | nil => simp [isPre]
  | cons c cs ih =>
    cases l with
    | nil => simp [isPre]
    | cons d ds =>
      rw [isPre]
      constructor
      · intro h
        obtain ⟨hcd, hrest⟩ := Bool.and_eq_true_iff.mp h
        obtain ⟨t, ht⟩ := (ih ds).mp hrest
        exact ⟨t, by simp [ht, (by simpa using hcd : c = d).symm]⟩
      · rintro ⟨t, ht⟩
        rw [List.cons_append] at ht
        obtain ⟨h1, h2⟩ := List.cons.inj ht
        refine Bool.and_eq_true_iff.mpr ⟨by simp [h1], (ih ds).mpr ⟨t, h2⟩⟩

theorem takeWhile_eq_self_of_all {q : Char → Bool} (l : Str)
    (h : ∀ c ∈ l, q c = true) : l.takeWhile q = l := by
  induction l with
  | nil => rfl
  | cons c cs ih =>
    rw [List.takeWhile_cons, h c (List.mem_cons_self c cs)]
    simp only [ite_true]
    rw [ih (fun c hc => h c (List.mem_cons_of_mem _ hc))]

theorem all_of_takeWhile_length {q : Char → Bool} (l : Str)
    (h : (l.takeWhile q).length = l.length) : ∀ c ∈ l, q c = true := by
  induction l with
  | nil => intro c hc; cases hc
  | cons c cs ih =>
    rw [List.takeWhile_cons] at h
    by_cases hq : q c = true
    · rw [hq] at h
      simp only [ite_true, List.length_cons, Nat.succ_inj] at h
      intro d hd
      rcases List.mem_cons.mp hd with rfl | hd
      · exact hq
      · exact ih h d hd
    · rw [Bool.not_eq_true] at hq
      rw [hq] at h
      simp at h

theorem splitOnceChar_eq_none_of_not_mem (sep : Char) (l : Str) (h : sep ∉ l) :
    splitOnceChar sep l = none := by
  induction l with
  | nil => rfl
  | cons c cs ih =>
    have hc : ¬(c = sep) := fun hh => h (hh ▸ List.mem_cons_self c cs)
    rw [splitOnceChar, if_neg hc, ih (fun hm => h (List.mem_cons_of_mem _ hm))]
    rfl

theorem splitOnceChar_append (sep : Char) (a b : Str) (h : sep ∉ a) :
    splitOnceChar sep (a ++ sep :: b) = some (a, b) := by
  induction a with
  | nil => simp [splitOnceChar]
  | cons c cs ih =>
    have hc : ¬(c = sep) := fun hh => h (hh ▸ List.mem_cons_self c cs)
    rw [List.cons_append, splitOnceChar, if_neg hc,
      ih (fun hm => h (List.mem_cons_of_mem _ hm))]
    rfl

theorem splitOnceChar_mem (sep : Char) (l a b : Str)
    (h : splitOnceChar sep l = some (a, b)) :
    (∀ c ∈ a, c ∈ l) ∧ (∀ c ∈ b, c ∈ l) := by
  induction l generalizing a b with
  | nil => cases h
  | cons d ds ih =>
    rw [splitOnceChar] at h
    by_cases hd : d = sep
    · rw [if_pos hd] at h
      simp only [Option.some.injEq, Prod.mk.injEq] at h
      obtain ⟨rfl, rfl⟩ := h
      exact ⟨fun c hc => absurd hc (List.not_mem_nil c),
        fun c hc => List.mem_cons_of_mem _ hc⟩
    · rw [if_neg hd] at h
      cases hsp : splitOnceChar sep ds with
      | none => rw [hsp] at h; cases h
      | some pq =>
        obtain ⟨p1, p2⟩ := pq
        rw [hsp] at h
        simp only [Option.map_some', Option.some.injEq, Prod.mk.injEq] at h
        obtain ⟨rfl, rfl⟩ := h
        obtain ⟨ih1, ih2⟩ := ih p1 p2 hsp
        constructor
        · intro c hc
          rcases List.mem_cons.mp hc with rfl | hc
          · exact List.mem_cons_self c ds
          · exact List.mem_cons_of_mem _ (ih1 c hc)
        · exact fun c hc => List.mem_cons_of_mem _ (ih2 c hc)

theorem findIdx_append_of_all_false {p : Char → Bool} (a b : Str)
    (h : ∀ c ∈ a, p c = false) :
    (a ++ b).findIdx p = a.length + b.findIdx p := by
  induction a with
  | nil => simp
  | cons c cs ih =>
    rw [List.cons_append, List.findIdx_cons, h c (List.mem_cons_self c cs)]
    simp only [cond_false]
    rw [ih (fun d hd => h d (List.mem_cons_of_mem _ hd))]
    simp only [List.length_cons]
    omega

theorem take_findIdx_all_false {p : Char → Bool} (l : Str) :
    ∀ c ∈ l.take (l.findIdx p), p c = false := by
  induction l with
  | nil => intro c hc; cases hc
  | cons d ds ih =>
    rw [List.findIdx_cons]
    cases hp : p d with
    | true => simp
    | false =>
      simp only [cond_false]
      intro c hc
      rw [List.take_succ_cons] at hc
      rcases List.mem_cons.mp hc with rfl | hc
      · exact hp
      · exact ih c hc

theorem drop_findIdx_shape {p : Char → Bool} (l : Str) :
    l.drop (l.findIdx p) = [] ∨
      ∃ c cs, l.drop (l.findIdx p) = c :: cs ∧ p c = true := by
  induction l with
  | nil => left; rfl
  | cons d ds ih =>
    rw [List.findIdx_cons]
    cases hp : p d with
    | true => right; exact ⟨d, ds, by simp, hp⟩
    | false =>
      simp only [cond_false]
      rw [List.drop_succ_cons]
      exact ih

theorem splitAllChar_cons_eq (sep c : Char) (cs : Str) (r : Str) (rs : List Str)
    (hsp : splitAllChar sep cs = r :: rs) :
    splitAllChar sep (c :: cs) =
      if c = sep then [] :: r :: rs else (c :: r) :: rs := by
  rw [splitAllChar, hsp]

theorem splitAllChar_ne_nil (sep : Char) (l : Str) : splitAllChar sep l ≠ [] := by
  induction l with
  | nil => simp [splitAllChar]
  | cons c cs ih =>
    cases hsp : splitAllChar sep cs with
    | nil => exact absurd hsp ih
    | cons r rs =>
      rw [splitAllChar_cons_eq sep c cs r rs hsp]
      split <;> simp

theorem mem_splitAllChar_not_sep (sep : Char) (l : Str) :
    ∀ x ∈ splitAllChar sep l, sep ∉ x := by
  induction l with
  | nil =>
    intro x hx
    rw [splitAllChar] at hx
    rcases List.mem_singleton.mp hx with rfl
    exact List.not_mem_nil sep
  | cons c cs ih =>
    intro x hx
    obtain ⟨r, rs, hsp⟩ : ∃ r rs, splitAllChar sep cs = r :: rs := by
      cases h : splitAllChar sep cs with
      | nil => exact absurd h (splitAllChar_ne_nil sep cs)
      | cons r rs => exact ⟨r, rs, rfl⟩
    rw [splitAllChar_cons_eq sep c cs r rs hsp] at hx
    by_cases hc : c = sep
    · rw [if_pos hc] at hx
      rcases List.mem_cons.mp hx with rfl | hx
      · exact List.not_mem_nil sep
      · exact ih x (hsp ▸ hx)
    · rw [if_neg hc] at hx
      rcases List.mem_cons.mp hx with rfl | hx
      · intro hm
        rcases List.mem_cons.mp hm with rfl | hm
        · exact hc rfl
        · exact ih r (hsp ▸ List.mem_cons_self r rs) hm
      · exact ih x (hsp ▸ List.mem_cons_of_mem r hx)

theorem mem_of_mem_splitAllChar (sep : Char) (l x : Str)
    (hx : x ∈ splitAllChar sep l) (c : Char) (hc : c ∈ x) : c ∈ l := by
  induction l generalizing x with
  | nil =>
    rw [splitAllChar] at hx
    rcases List.mem_singleton.mp hx with rfl
    cases hc
  | cons d ds ih =>
    obtain ⟨r, rs, hsp⟩ : ∃ r rs, splitAllChar sep ds = r :: rs := by
      cases h : splitAllChar sep ds with
      | nil => exact absurd h (splitAllChar_ne_nil sep ds)
      | cons r rs => exact ⟨r, rs, rfl⟩
    rw [splitAllChar_cons_eq sep d ds r rs hsp] at hx
    by_cases hd : d = sep
    · rw [if_pos hd] at hx
      rcases List.mem_cons.mp hx with rfl | hx
      · cases hc
      · exact List.mem_cons_of_mem _ (ih x (hsp ▸ hx) hc)
    · rw [if_neg hd] at hx
      rcases List.mem_cons.mp hx with rfl | hx
      · rcases List.mem_cons.mp hc with rfl | hc2
        · exact List.mem_cons_self c ds
        · exact List.mem_cons_of_mem _ (ih r (hsp ▸ List.mem_cons_self r rs) hc2)
      · exact List.mem_cons_of_mem _ (ih x (hsp ▸ List.mem_cons_of_mem r hx) hc)

theorem splitAllChar_append_sep (sep : Char) (a b : Str) (ha : sep ∉ a) :
    splitAllChar sep (a ++ sep :: b) = a :: splitAllChar sep b := by
  induction a with
  | nil =>
    obtain ⟨r, rs, hsp⟩ : ∃ r rs, splitAllChar sep b = r :: rs := by
      cases h : splitAllChar sep b with
      | nil => exact absurd h (splitAllChar_ne_nil sep b)
      | cons r rs => exact ⟨r, rs, rfl⟩
    rw [List.nil_append, splitAllChar_cons_eq sep sep b r rs hsp, if_pos rfl, hsp]
  | cons c cs ih =>
    have hc : ¬(c = sep) := fun hh => ha (hh ▸ List.mem_cons_self c cs)
    have ih2 := ih (fun hm => ha (List.mem_cons_of_mem _ hm))
    obtain ⟨r, rs, hsp⟩ : ∃ r rs, splitAllChar sep (cs ++ sep :: b) = r :: rs := by
      cases h : splitAllChar sep (cs ++ sep :: b) with
      | nil => exact absurd h (splitAllChar_ne_nil sep _)
      | cons r rs => exact ⟨r, rs, rfl⟩
    rw [List.cons_append, splitAllChar_cons_eq sep c _ r rs hsp, if_neg hc]
    rw [hsp] at ih2
    obtain ⟨h1, h2⟩ := List.cons.inj ih2
    rw [h1, h2]

theorem splitAllChar_intercalate (sep : Char) (ps : List Str) (hne : ps ≠ [])
    (hfree : ∀ x ∈ ps, sep ∉ x) :
    splitAllChar sep (List.intercalate [sep] ps) = ps := by
  induction ps with
  | nil => exact absurd rfl hne
  | cons p ps ih =>
    cases ps with
    | nil =>
      have h1 : List.intercalate [sep] [p] = p := by
        simp [List.intercalate]
      rw [h1]
      exact splitAllChar_of_not_mem sep p (hfree p (List.mem_singleton_self p))
    | cons q qs =>
      have hjoin : List.intercalate [sep] (p :: q :: qs) =
          p ++ sep :: List.intercalate [sep] (q :: qs) := rfl
      rw [hjoin,
        splitAllChar_append_sep sep p _ (hfree p (List.mem_cons_self p _)),
        ih (List.cons_ne_nil q qs) (fun x hx => hfree x (List.mem_cons_of_mem _ hx))]

theorem filter_idem {α : Type} (p : α → Bool) (l : List α) :
    (l.filter p).filter p = l.filter p := by
  induction l with
  | nil => rfl
  | cons c cs ih =>
    rw [List.filter_cons]
    by_cases hc : p c = true
    · simp only [hc, ite_true, List.filter_cons, ih]
    · rw [Bool.not_eq_true] at hc
      simp only [hc, Bool.false_eq_true, ite_false, ih]

theorem mem_intercalate_single (sep : Char) (ps : List Str) (c : Char)
    (hc : c ∈ List.intercalate [sep] ps) : c = sep ∨ ∃ x ∈ ps, c ∈ x := by
  induction ps with
  | nil => cases hc
  | cons p ps ih =>
    cases ps with
    | nil =>
      have h1 : List.intercalate [sep] [p] = p := by
        simp [List.intercalate]
      rw [h1] at hc
      exact Or.inr ⟨p, List.mem_singleton_self p, hc⟩
    | cons q qs =>
      have hjoin : List.intercalate [sep] (p :: q :: qs) =
          p ++ sep :: List.intercalate [sep] (q :: qs) := rfl
      rw [hjoin] at hc
      rcases List.mem_append.mp hc with hp | hrest
      · exact Or.inr ⟨p, List.mem_cons_self p _, hp⟩
      · rcases List.mem_cons.mp hrest with rfl | hrest
        · exact Or.inl rfl
        · rcases ih hrest with h | ⟨x, hx, hcx⟩
          · exact Or.inl h
          · exact Or.inr ⟨x, List.mem_cons_of_mem _ hx, hcx⟩

theorem tryDescAux_some (f : Nat → Option Nat) (n : Nat)
    (hf : ∀ k, (f k).isSome = true) :
    tryDescAux f 1 (n + 1) = f (n + 1) := by
  rw [tryDescAux]
  have : ¬(n + 1 < 1) := by omega
  rw [if_neg this]
  cases hfk : f (n + 1) with
  | none => exact absurd (hfk ▸ hf (n + 1)) (by simp)
  | some v => simp [Option.orElse]

theorem tryDescAux_zero (f : Nat → Option Nat) :
    tryDescAux f 1 0 = none := by
  rw [tryDescAux]
  simp

theorem charOfNatAux_toNat (n : Nat) (h : n.isValidChar) :
    (Char.ofNatAux n h).toNat = n := rfl

theorem char_toLower_toNat (c : Char) :
    c.toLower.toNat = if 65 ≤ c.toNat ∧ c.toNat ≤ 90 then c.toNat + 32 else c.toNat := by
  simp only [Char.toLower]
  split
  · rename_i h
    have hv : (c.toNat + 32).isValidChar := Or.inl (by omega)
    rw [Char.ofNat, dif_pos hv, charOfNatAux_toNat]
  · rfl

theorem char_eq_of_toNat_eq {a b : Char} (h : a.toNat = b.toNat) : a = b := by
  apply Char.ext
  apply UInt32.ext
  exact h

theorem charToLower_idem (c : Char) : c.toLower.toLower = c.toLower := by
  apply char_eq_of_toNat_eq
  rw [char_toLower_toNat, char_toLower_toNat c]
  split
  · rename_i h
    rw [if_neg (by omega)]
  · rfl

theorem charToLower_ascii (c : Char) (h : c.toNat < 128) : c.toLower.toNat < 128 := by
  rw [char_toLower_toNat]
  split <;> omega

theorem charToLower_eq_low (c d : Char)
    (hd : d.toNat < 65 ∨ (90 < d.toNat ∧ d.toNat < 97) ∨ 122 < d.toNat)
    (h : c.toLower = d) : c = d := by
  have h2 : c.toLower.toNat = d.toNat := by rw [h]
  rw [char_toLower_toNat] at h2
  apply char_eq_of_toNat_eq
  rcases Decidable.em (65 ≤ c.toNat ∧ c.toNat ≤ 90) with hc | hc
  · rw [if_pos hc] at h2
    omega
  · rw [if_neg hc] at h2
    exact h2

theorem findIdxOpt_append_first (p : Char → Bool) (a b : Str) (c : Char)
    (ha : ∀ x ∈ a, p x = false) (hc : p c = true) :
    findIdxOpt p (a ++ c :: b) = some a.length := by
  induction a with
  | nil => simp [findIdxOpt, hc]
  | cons d ds ih =>
    rw [List.cons_append, findIdxOpt, ha d (List.mem_cons_self d ds),
      ih (fun x hx => ha x (List.mem_cons_of_mem _ hx))]
    simp

theorem splitOnceChar_none_not_mem (sep : Char) (l : Str)
    (h : splitOnceChar sep l = none) : sep ∉ l := by
  induction l with
  | nil => simp
  | cons c cs ih =>
    rw [splitOnceChar] at h
    by_cases hc : c = sep
    · rw [if_pos hc] at h; cases h
    · rw [if_neg hc] at h
      cases hsp : splitOnceChar sep cs with
      | none =>
        intro hm
        rcases List.mem_cons.mp hm with h1 | h1
        · exact hc h1.symm
        · exact ih hsp h1
      | some pq => rw [hsp] at h; cases h

theorem splitOnceChar_fst_not_mem (sep : Char) (l a b : Str)
    (h : splitOnceChar sep l = some (a, b)) : sep ∉ a := by
  induction l generalizing a b with
  | nil => cases h
  | cons d ds ih =>
    rw [splitOnceChar] at h
    by_cases hd : d = sep
    · rw [if_pos hd] at h
      simp only [Option.some.injEq, Prod.mk.injEq] at h
      obtain ⟨rfl, rfl⟩ := h
      simp
    · rw [if_neg hd] at h
      cases hsp : splitOnceChar sep ds with
      | none => rw [hsp] at h; cases h
      | some pq =>
        obtain ⟨p1, p2⟩ := pq
        rw [hsp] at h
        simp only [Option.map_some', Option.some.injEq, Prod.mk.injEq] at h
        obtain ⟨rfl, rfl⟩ := h
        intro hm
        rcases List.mem_cons.mp hm with h1 | h1
        · exact hd h1.symm
        · exact ih p1 p2 hsp h1

theorem map_eq_self_of_mem (f : Char → Char) (l : Str) (h : ∀ c ∈ l, f c = c) :
    l.map f = l := by
  induction l with
  | nil => rfl
  | cons c cs ih =>
    rw [List.map_cons, h c (List.mem_cons_self c cs),
      ih (fun d hd => h d (List.mem_cons_of_mem _ hd))]

theorem mem_afterNetlocT (t : Str) (c : Char) (h : c ∈ afterNetlocT t) : c ∈ t :=
  List.drop_subset _ t h

theorem mem_netlocOfT (t : Str) (c : Char) (h : c ∈ netlocOfT t) : c ∈ t :=
  List.take_subset _ t h

theorem mem_pathOfT (t : Str) (c : Char) (h : c ∈ pathOfT t) : c ∈ t := by
  rw [pathOfT] at h
  cases hsp : splitOnceChar '?' (afterNetlocT t) with
  | none =>
    rw [hsp] at h
    exact mem_afterNetlocT t c h
  | some pq =>
    obtain ⟨a, b⟩ := pq
    rw [hsp] at h
    exact mem_afterNetlocT t c ((splitOnceChar_mem '?' _ a b hsp).1 c h)

theorem mem_queryOfT (t : Str) (c : Char) (h : c ∈ queryOfT t) : c ∈ t := by
  rw [queryOfT] at h
  cases hsp : splitOnceChar '?' (afterNetlocT t) with
  | none =>
    rw [hsp] at h
    cases h
  | some pq =>
    obtain ⟨a, b⟩ := pq
    rw [hsp] at h
    exact mem_afterNetlocT t c ((splitOnceChar_mem '?' _ a b hsp).2 c h)

theorem pathOfT_no_query (t : Str) : '?' ∉ pathOfT t := by
  rw [pathOfT]
  cases hsp : splitOnceChar '?' (afterNetlocT t) with
  | none => exact splitOnceChar_none_not_mem '?' _ hsp
  | some pq =>
    obtain ⟨a, b⟩ := pq
    exact splitOnceChar_fst_not_mem '?' _ a b hsp

theorem pathOfT_shape (t : Str) (hh : '#' ∉ t) :
    pathOfT t = [] ∨ ∃ ps, pathOfT t = '/' :: ps := by
  rcases drop_findIdx_shape (p := netlocDelim) (l := t) with h0 | ⟨c, cs, h0, hc⟩
  · left
    simp only [pathOfT, afterNetlocT, h0]
    rfl
  · have hcmem : c ∈ t := by
      have h1 : c ∈ t.drop (t.findIdx netlocDelim) := by
        rw [h0]; exact List.mem_cons_self c cs
      exact List.drop_subset _ t h1
    have hce : c = '/' ∨ c = '?' := by
      simp only [netlocDelim, Bool.or_eq_true, decide_eq_true_eq] at hc
      rcases hc with (h1 | h1) | h1
      · exact Or.inl h1
      · exact Or.inr h1
      · exact absurd (h1 ▸ hcmem) hh
    simp only [pathOfT, afterNetlocT, h0]
    rcases hce with rfl | rfl
    · cases hsp : splitOnceChar '?' ('/' :: cs) with
      | none =>
        right
        exact ⟨cs, rfl⟩
      | some pq =>
        obtain ⟨a, b⟩ := pq
        rw [splitOnceChar, if_neg (by decide : ¬('/' = '?'))] at hsp
        cases hsp2 : splitOnceChar '?' cs with
        | none => rw [hsp2] at hsp; cases hsp
        | some pq2 =>
          obtain ⟨a2, b2⟩ := pq2
          rw [hsp2] at hsp
          simp only [Option.map_some', Option.some.injEq, Prod.mk.injEq] at hsp
          obtain ⟨ha2, hb2⟩ := hsp
          right
          exact ⟨a2, ha2.symm⟩
    · rw [splitOnceChar, if_pos rfl]
      left
      rfl

theorem urlChar_tab (lib : PyLib) : urlChar lib '\t' = false := rfl

theorem urlChar_cr (lib : PyLib) : urlChar lib '\r' = false := rfl

theorem urlChar_lf (lib : PyLib) : urlChar lib '\n' = false := rfl

theorem urlChar_hash (lib : PyLib) : urlChar lib '#' = false := rfl

theorem urlChar_not_unsafe (lib : PyLib) (c : Char)
    (h : urlChar lib c = true) : unsafeUrlByte c = false := by
  by_cases h1 : c = '\t'
  · rw [h1, urlChar_tab] at h; cases h
  by_cases h2 : c = '\r'
  · rw [h2, urlChar_cr] at h; cases h
  by_cases h3 : c = '\n'
  · rw [h3, urlChar_lf] at h; cases h
  simp [unsafeUrlByte, h1, h2, h3]

theorem urlChar_ne_hash (lib : PyLib) (c : Char)
    (h : urlChar lib c = true) : c ≠ '#' := by
  intro he
  rw [he, urlChar_hash] at h
  cases h

theorem urlRegex_full_inv (lib : PyLib) (u : Str)
    (h : matchEnd (urlRegex lib) none u = some u.length) :
    ∃ pre t, (pre = strOf ("http") ∨ pre = strOf ("https")) ∧
      u = pre ++ strOf ("://") ++ t ∧ t ≠ [] ∧ ∀ c ∈ t, urlChar lib c = true := by
  rw [matchEnd] at h
  obtain ⟨r, hr, hrlen⟩ :
      ∃ r, matchRe (urlRegex lib) none u (fun _ rest => some rest.length) = some r ∧
        u.length - r = u.length := by
    cases hm : matchRe (urlRegex lib) none u (fun _ rest => some rest.length) with
    | none => rw [hm] at h; cases h
    | some r =>
      rw [hm] at h
      simp only [Option.map_some', Option.some.injEq] at h
      exact ⟨r, rfl, h⟩
  clear h
  simp only [urlRegex, matchRe] at hr
  by_cases h1 : isPre (strOf ("http")) u = true
  · rw [if_pos h1] at hr
    obtain ⟨u1, rfl⟩ := (isPre_iff _ _).mp h1
    rw [List.drop_left] at hr
    by_cases h2 : isPre (strOf ("s")) u1 = true
    · rw [if_pos h2] at hr
      obtain ⟨u2, rfl⟩ := (isPre_iff _ _).mp h2
      rw [List.drop_left] at hr
      by_cases h3 : isPre (strOf ("://")) u2 = true
      · rw [if_pos h3] at hr
        obtain ⟨t, rfl⟩ := (isPre_iff _ _).mp h3
        rw [List.drop_left] at hr
        cases hlen : (t.takeWhile (urlChar lib)).length with
        | zero =>
          rw [hlen, tryDescAux_zero] at hr
          simp only [Option.orElse] at hr
          rw [if_neg (by simp [isPre, strOf])] at hr
          cases hr
        | succ m =>
          rw [hlen, tryDescAux_some (fun n => some (t.drop n).length) m (fun k => rfl)] at hr
          simp only [Option.orElse] at hr
          simp only [Option.some.injEq] at hr
          rw [List.length_drop] at hr
          have hmle : m + 1 ≤ t.length := by
            rw [← hlen]
            exact (List.takeWhile_sublist (urlChar lib)).length_le
          rw [List.length_append, List.length_append, List.length_append,
            (rfl : (strOf ("http")).length = 4), (rfl : (strOf ("s")).length = 1),
            (rfl : (strOf ("://")).length = 3)] at hrlen
          have hall : (t.takeWhile (urlChar lib)).length = t.length := by omega
          have htne : t ≠ [] := by
            apply List.ne_nil_of_length_pos
            omega
          exact ⟨strOf ("https"), t, Or.inr rfl, rfl, htne,
            all_of_takeWhile_length t hall⟩
      · rw [if_neg h3] at hr
        simp only [Option.orElse] at hr
        rw [if_neg (by simp [isPre, strOf])] at hr
        cases hr
    · rw [if_neg h2] at hr
      simp only [Option.orElse] at hr
      by_cases h3 : isPre (strOf ("://")) u1 = true
      · rw [if_pos h3] at hr
        obtain ⟨t, rfl⟩ := (isPre_iff _ _).mp h3
        rw [List.drop_left] at hr
        cases hlen : (t.takeWhile (urlChar lib)).length with
        | zero =>
          rw [hlen, tryDescAux_zero] at hr
          cases hr
        | succ m =>
          rw [hlen, tryDescAux_some (fun n => some (t.drop n).length) m (fun k => rfl)] at hr
          simp only [Option.some.injEq] at hr
          rw [List.length_drop] at hr
          have hmle : m + 1 ≤ t.length := by
            rw [← hlen]
            exact (List.takeWhile_sublist (urlChar lib)).length_le
          rw [List.length_append, List.length_append,
            (rfl : (strOf ("http")).length = 4),
            (rfl : (strOf ("://")).length = 3)] at hrlen
          have hall : (t.takeWhile (urlChar lib)).length = t.length := by omega
          have htne : t ≠ [] := by
            apply List.ne_nil_of_length_pos
            omega
          exact ⟨strOf ("http"), t, Or.inl rfl, rfl, htne,
            all_of_takeWhile_length t hall⟩
      · rw [if_neg h3] at hr
        cases hr
  · rw [if_neg h1] at hr
    cases hr

theorem urlsplitTailEq (lib : PyLib) (sch t : Str)
    (hh : '#' ∉ t) (hnl : pyIsAscii (netlocOfT t) = true) :
    (match (if bracketBad (netlocOfT t) = true
            then (Except.error (strOf ("Invalid IPv6 URL")) : Except Str (Str × Str))
            else Except.ok (netlocOfT t, afterNetlocT t)) with
     | Except.error e => Except.error e
     | Except.ok (netloc, rest1) =>
       let fragSplit :=
         match splitOnceChar '#' rest1 with
         | some p => p
         | none => (rest1, ([] : Str))
       let querySplit :=
         match splitOnceChar '?' fragSplit.1 with
         | some p => p
         | none => (fragSplit.1, ([] : Str))
       match checknetloc lib netloc with
       | Except.error e => Except.error e
       | Except.ok _ =>
         Except.ok (⟨sch, netloc, querySplit.1, querySplit.2, fragSplit.2⟩ : SplitResult)) =
    (if bracketBad (netlocOfT t) = true
     then (Except.error (strOf ("Invalid IPv6 URL")) : Except Str SplitResult)
     else Except.ok (⟨sch, netlocOfT t, pathOfT t, queryOfT t, []⟩ : SplitResult)) := by
  have hfrag : splitOnceChar '#' (afterNetlocT t) = none :=
    splitOnceChar_eq_none_of_not_mem '#' _ (fun hm => hh (mem_afterNetlocT t '#' hm))
  have hcn : checknetloc lib (netlocOfT t) = Except.ok () := by
    rw [checknetloc, hnl]
    simp
  by_cases hbb : bracketBad (netlocOfT t) = true
  · rw [if_pos hbb, if_pos hbb]
  · rw [if_neg hbb, if_neg hbb]
    cases hq : splitOnceChar '?' (afterNetlocT t) with
    | none =>
      have hp : pathOfT t = afterNetlocT t := by rw [pathOfT, hq]
      have hqy : queryOfT t = [] := by rw [queryOfT, hq]
      rw [hp, hqy]
      simp only [hfrag, hq, hcn]
    | some pq =>
      obtain ⟨a, b⟩ := pq
      have hp : pathOfT t = a := by rw [pathOfT, hq]
      have hqy : queryOfT t = b := by rw [queryOfT, hq]
      rw [hp, hqy]
      simp only [hfrag, hq, hcn]

theorem urlsplit_http (lib : PyLib) (pre t : Str)
    (hpre : pre = strOf ("http") ∨ pre = strOf ("https"))
    (ht : ∀ c ∈ t, unsafeUrlByte c = false)
    (hh : '#' ∉ t)
    (hnl : pyIsAscii (netlocOfT t) = true) :
    urlsplit lib (pre ++ strOf ("://") ++ t) =
      if bracketBad (netlocOfT t) = true
      then (Except.error (strOf ("Invalid IPv6 URL")) : Except Str SplitResult)
      else Except.ok (⟨pre, netlocOfT t, pathOfT t, queryOfT t, []⟩ : SplitResult) := by
  have hF : List.filter (fun c => !unsafeUrlByte c) t = t := by
    apply List.filter_eq_self.mpr
    intro c hc
    rw [ht c hc]
    rfl
  rcases hpre with rfl | rfl
  · have hstep : urlsplit lib ('h' :: 't' :: 't' :: 'p' :: ':' :: '/' :: '/' :: t) =
        (match (if bracketBad (netlocOfT (List.filter (fun c => !unsafeUrlByte c) t)) = true
                then (Except.error (strOf ("Invalid IPv6 URL")) : Except Str (Str × Str))
                else Except.ok
                  (netlocOfT (List.filter (fun c => !unsafeUrlByte c) t),
                   afterNetlocT (List.filter (fun c => !unsafeUrlByte c) t))) with
         | Except.error e => Except.error e
         | Except.ok (netloc, rest1) =>
           let fragSplit :=
             match splitOnceChar '#' rest1 with
             | some p => p
             | none => (rest1, ([] : Str))
           let querySplit :=
             match splitOnceChar '?' fragSplit.1 with
             | some p => p
             | none => (fragSplit.1, ([] : Str))
           match checknetloc lib netloc with
           | Except.error e => Except.error e
           | Except.ok _ =>
             Except.ok
               (⟨strOf ("http"), netloc, querySplit.1, querySplit.2, fragSplit.2⟩ :
                 SplitResult)) := rfl
    rw [hF] at hstep
    exact hstep.trans (urlsplitTailEq lib (strOf ("http")) t hh hnl)
  · have hstep : urlsplit lib ('h' :: 't' :: 't' :: 'p' :: 's' :: ':' :: '/' :: '/' :: t) =
        (match (if bracketBad (netlocOfT (List.filter (fun c => !unsafeUrlByte c) t)) = true
                then (Except.error (strOf ("Invalid IPv6 URL")) : Except Str (Str × Str))
                else Except.ok
                  (netlocOfT (List.filter (fun c => !unsafeUrlByte c) t),
                   afterNetlocT (List.filter (fun c => !unsafeUrlByte c) t))) with
         | Except.error e => Except.error e
         | Except.ok (netloc, rest1) =>
           let fragSplit :=
             match splitOnceChar '#' rest1 with
             | some p => p
             | none => (rest1, ([] : Str))
           let querySplit :=
             match splitOnceChar '?' fragSplit.1 with
             | some p => p
             | none => (fragSplit.1, ([] : Str))
           match checknetloc lib netloc with
           | Except.error e => Except.error e
           | Except.ok _ =>
             Except.ok
               (⟨strOf ("https"), netloc, querySplit.1, querySplit.2, fragSplit.2⟩ :
                 SplitResult)) := rfl
    rw [hF] at hstep
    exact hstep.trans (urlsplitTailEq lib (strOf ("https")) t hh hnl)

theorem pyUrlparse_http (lib : PyLib) (pre t : Str)
    (hpre : pre = strOf ("http") ∨ pre = strOf ("https"))
    (ht : ∀ c ∈ t, unsafeUrlByte c = false)
    (hh : '#' ∉ t)
    (hnl : pyIsAscii (netlocOfT t) = true)
    (hbb : bracketBad (netlocOfT t) = false)
    (hsemi : ';' ∉ pathOfT t) :
    pyUrlparse lib (pre ++ strOf ("://") ++ t) =
      Except.ok (⟨pre, netlocOfT t, pathOfT t, [], queryOfT t, []⟩ : ParseResult) := by
  have hsp := urlsplit_http lib pre t hpre ht hh hnl
  rw [if_neg (by rw [hbb]; exact Bool.false_ne_true)] at hsp
  rw [pyUrlparse, hsp]
  simp only [decide_eq_false hsemi, Bool.and_false]
  rfl

theorem pyLower_mem_char (lib : PyLib) (l : Str) (hl : ∀ c ∈ l, c.toNat < 128)
    (c : Char) (hc : c ∈ pyLower lib l) :
    ∃ n, n ∈ l ∧ n.toNat < 128 ∧ c = n.toLower := by
  rw [pyLower] at hc
  obtain ⟨n, hn, he⟩ := List.mem_map.mp hc
  have hna : n.toNat < 128 := hl n hn
  refine ⟨n, hn, hna, ?_⟩
  rw [← he, pyLowerChar, if_pos hna]

theorem pyLower_unsafe (lib : PyLib) (l : Str) (hl : ∀ c ∈ l, c.toNat < 128)
    (hu : ∀ c ∈ l, unsafeUrlByte c = false) :
    ∀ c ∈ pyLower lib l, unsafeUrlByte c = false := by
  intro c hc
  obtain ⟨n, hn, hna, rfl⟩ := pyLower_mem_char lib l hl c hc
  have hnu := hu n hn
  by_cases h1 : n.toLower = '\t'
  · rw [charToLower_eq_low n '\t' (by decide) h1] at hnu
    exact absurd hnu (by decide)
  by_cases h2 : n.toLower = '\r'
  · rw [charToLower_eq_low n '\r' (by decide) h2] at hnu
    exact absurd hnu (by decide)
  by_cases h3 : n.toLower = '\n'
  · rw [charToLower_eq_low n '\n' (by decide) h3] at hnu
    exact absurd hnu (by decide)
  simp [unsafeUrlByte, h1, h2, h3]

theorem pyLower_not_delim (lib : PyLib) (l : Str) (hl : ∀ c ∈ l, c.toNat < 128)
    (hd : ∀ c ∈ l, netlocDelim c = false) :
    ∀ c ∈ pyLower lib l, netlocDelim c = false := by
  intro c hc
  obtain ⟨n, hn, hna, rfl⟩ := pyLower_mem_char lib l hl c hc
  have hnd := hd n hn
  by_cases h1 : n.toLower = '/'
  · rw [charToLower_eq_low n '/' (by decide) h1] at hnd
    exact absurd hnd (by decide)
  by_cases h2 : n.toLower = '?'
  · rw [charToLower_eq_low n '?' (by decide) h2] at hnd
    exact absurd hnd (by decide)
  by_cases h3 : n.toLower = '#'
  · rw [charToLower_eq_low n '#' (by decide) h3] at hnd
    exact absurd hnd (by decide)
  simp [netlocDelim, h1, h2, h3]

theorem pyLower_not_hash (lib : PyLib) (l : Str) (hl : ∀ c ∈ l, c.toNat < 128)
    (hh : '#' ∉ l) : '#' ∉ pyLower lib l := by
  intro hm
  obtain ⟨n, hn, hna, he⟩ := pyLower_mem_char lib l hl '#' hm
  rw [charToLower_eq_low n '#' (by decide) he.symm] at hn
  exact hh hn

theorem pyLower_fix (lib : PyLib) (l : Str) (hl : ∀ c ∈ l, c.toNat < 128) :
    pyLower lib (pyLower lib l) = pyLower lib l := by
  rw [pyLower]
  apply map_eq_self_of_mem
  intro c hc
  obtain ⟨n, hn, hna, rfl⟩ := pyLower_mem_char lib l hl c hc
  rw [pyLowerChar, if_pos (charToLower_ascii n hna), charToLower_idem]

theorem pyLower_ascii (lib : PyLib) (l : Str) (hl : ∀ c ∈ l, c.toNat < 128) :
    pyIsAscii (pyLower lib l) = true := by
  rw [pyIsAscii]
  apply List.all_eq_true.mpr
  intro c hc
  obtain ⟨n, hn, hna, rfl⟩ := pyLower_mem_char lib l hl c hc
  exact decide_eq_true (charToLower_ascii n hna)

theorem pyLower_symbol_mem (lib : PyLib) (l : Str) (hl : ∀ c ∈ l, c.toNat < 128)
    (d : Char) (hd : 90 < d.toNat ∧ d.toNat < 97) :
    d ∈ pyLower lib l ↔ d ∈ l := by
  constructor
  · intro hm
    obtain ⟨n, hn, hna, he⟩ := pyLower_mem_char lib l hl d hm
    rw [charToLower_eq_low n d (Or.inr (Or.inl hd)) he.symm] at hn
    exact hn
  · intro hm
    rw [pyLower]
    refine List.mem_map.mpr ⟨d, hm, ?_⟩
    rw [pyLowerChar, if_pos (by omega : d.toNat < 128)]
    apply char_eq_of_toNat_eq
    rw [char_toLower_toNat, if_neg (by omega)]

theorem bracketBad_pyLower (lib : PyLib) (l : Str) (hl : ∀ c ∈ l, c.toNat < 128) :
    bracketBad (pyLower lib l) = bracketBad l := by
  rw [bracketBad, bracketBad,
    decide_eq_decide.mpr (pyLower_symbol_mem lib l hl '[' (by decide)),
    decide_eq_decide.mpr (pyLower_symbol_mem lib l hl ']' (by decide)),
    decide_eq_decide.mpr (not_congr (pyLower_symbol_mem lib l hl '[' (by decide))),
    decide_eq_decide.mpr (not_congr (pyLower_symbol_mem lib l hl ']' (by decide)))]

theorem netloc_append_delim (dom r : Str) (hdom : ∀ c ∈ dom, netlocDelim c = false)
    (hr : r.findIdx netlocDelim = 0) :
    netlocOfT (dom ++ r) = dom ∧ afterNetlocT (dom ++ r) = r := by
  have h1 : (dom ++ r).findIdx netlocDelim = dom.length + 0 := by
    rw [findIdx_append_of_all_false dom r hdom, hr]
  constructor
  · rw [netlocOfT, h1, List.take_append, List.take_zero, List.append_nil]
  · rw [afterNetlocT, h1, List.drop_append, List.drop_zero]

/-- C2 (amended): normalization is idempotent for every extractable URL
(a full `URL_REGEX` match) that is pure ASCII, contains no `;`, whose
lowercased domain is not punycode (no `xn--` prefix and no `.xn--`), and
whose path is a fixed point of percent-decoding (no decodable `%xx` escape);
percent-decoding the path is exactly what breaks idempotence in general
(see the counterexample). -/
theorem c2_normalize_idempotent (lib : PyLib) (u : Str)
    (hfull : matchEnd (urlRegex lib) none u = some u.length)
    (hascii : pyIsAscii u = true)
    (hsemi : ';' ∉ u)
    (hxn1 : isPre (strOf ("xn--")) (pyLower lib (parsedNetlocD lib u)) = false)
    (hxn2 : containsSub (strOf (".xn--")) (pyLower lib (parsedNetlocD lib u)) = false)
    (hq : unquote (parsedPathD lib u) = parsedPathD lib u) :
    normalizeUrl lib (normalizeUrl lib u) = normalizeUrl lib u := by
  obtain ⟨pre, t, hpre, hu, htne, hturl⟩ := urlRegex_full_inv lib u hfull
  subst hu
  rw [pyIsAscii] at hascii
  have hta : ∀ c ∈ t, c.toNat < 128 := fun c hc =>
    of_decide_eq_true (List.all_eq_true.mp hascii c (List.mem_append.mpr (Or.inr hc)))
  have htu : ∀ c ∈ t, unsafeUrlByte c = false := fun c hc =>
    urlChar_not_unsafe lib c (hturl c hc)
  have hth : '#' ∉ t := fun hm => urlChar_ne_hash lib '#' (hturl '#' hm) rfl
  have hNa : ∀ c ∈ netlocOfT t, c.toNat < 128 := fun c hc => hta c (mem_netlocOfT t c hc)
  have hnlA : pyIsAscii (netlocOfT t) = true := by
    rw [pyIsAscii]
    exact List.all_eq_true.mpr (fun c hc => decide_eq_true (hNa c hc))
  by_cases hbb : bracketBad (netlocOfT t) = true
  · have hsp := urlsplit_http lib pre t hpre htu hth hnlA
    rw [if_pos hbb] at hsp
    have hpu : pyUrlparse lib (pre ++ strOf ("://") ++ t) =
        Except.error (strOf ("Invalid IPv6 URL")) := by
      rw [pyUrlparse, hsp]
    have hnu : normalizeUrl lib (pre ++ strOf ("://") ++ t) =
        pre ++ strOf ("://") ++ t := by
      rw [normalizeUrl, hpu]
    rw [hnu]
    exact hnu
  · have hbbf : bracketBad (netlocOfT t) = false := Bool.eq_false_iff.mpr hbb
    have hsemiP : ';' ∉ pathOfT t := fun hm =>
      hsemi (List.mem_append.mpr (Or.inr (mem_pathOfT t ';' hm)))
    have hP1 : pyUrlparse lib (pre ++ strOf ("://") ++ t) =
        Except.ok (⟨pre, netlocOfT t, pathOfT t, [], queryOfT t, []⟩ : ParseResult) :=
      pyUrlparse_http lib pre t hpre htu hth hnlA hbbf hsemiP
    have hnd : parsedNetlocD lib (pre ++ strOf ("://") ++ t) = netlocOfT t := by
      rw [parsedNetlocD, hP1]
    have hpd : parsedPathD lib (pre ++ strOf ("://") ++ t) = pathOfT t := by
      rw [parsedPathD, hP1]
    rw [hnd] at hxn1 hxn2
    rw [hpd] at hq
    have hNu : ∀ c ∈ netlocOfT t, unsafeUrlByte c = false := fun c hc =>
      htu c (mem_netlocOfT t c hc)
    have hNh : '#' ∉ netlocOfT t := fun hm => hth (mem_netlocOfT t '#' hm)
    have hNnd : ∀ c ∈ netlocOfT t, netlocDelim c = false := take_findIdx_all_false t
    have hDnd : ∀ c ∈ pyLower lib (netlocOfT t), netlocDelim c = false :=
      pyLower_not_delim lib _ hNa hNnd
    have hDun : ∀ c ∈ pyLower lib (netlocOfT t), unsafeUrlByte c = false :=
      pyLower_unsafe lib _ hNa hNu
    have hDh : '#' ∉ pyLower lib (netlocOfT t) := pyLower_not_hash lib _ hNa hNh
    have hPun : ∀ c ∈ pathOfT t, unsafeUrlByte c = false := fun c hc =>
      htu c (mem_pathOfT t c hc)
    have hPhash : '#' ∉ pathOfT t := fun hm => hth (mem_pathOfT t '#' hm)
    have hPq : '?' ∉ pathOfT t := pathOfT_no_query t
    have hPshape := pathOfT_shape t hth
    have hv1gen : normalizeUrl lib (pre ++ strOf ("://") ++ t) =
        (if (if (if queryOfT t ≠ [] then
                  (splitAllChar '&' (queryOfT t)).filter (normKeep lib)
                else []) ≠ [] then
              pyJoin (strOf ("&"))
                (if queryOfT t ≠ [] then
                  (splitAllChar '&' (queryOfT t)).filter (normKeep lib)
                else [])
            else []) ≠ [] then
          (pre ++ strOf ("://") ++
            (if isPre (strOf ("xn--")) (pyLower lib (netlocOfT t)) ||
                containsSub (strOf (".xn--")) (pyLower lib (netlocOfT t)) then
              (lib.idnaDecode (pyLower lib (netlocOfT t))).getD
                (pyLower lib (netlocOfT t))
            else pyLower lib (netlocOfT t)) ++ unquote (pathOfT t)) ++
            strOf ("?") ++
            (if (if queryOfT t ≠ [] then
                  (splitAllChar '&' (queryOfT t)).filter (normKeep lib)
                else []) ≠ [] then
              pyJoin (strOf ("&"))
                (if queryOfT t ≠ [] then
                  (splitAllChar '&' (queryOfT t)).filter (normKeep lib)
                else [])
            else [])
        else
          pre ++ strOf ("://") ++
            (if isPre (strOf ("xn--")) (pyLower lib (netlocOfT t)) ||
                containsSub (strOf (".xn--")) (pyLower lib (netlocOfT t)) then
              (lib.idnaDecode (pyLower lib (netlocOfT t))).getD
                (pyLower lib (netlocOfT t))
            else pyLower lib (netlocOfT t)) ++ unquote (pathOfT t)) := by
      rw [normalizeUrl, hP1]
      rfl
    rw [hxn1, hxn2, hq] at hv1gen
    have downstream :
        normalizeUrl lib (pre ++ strOf ("://") ++ t) =
          pre ++ strOf ("://") ++ pyLower lib (netlocOfT t) ++ pathOfT t →
        normalizeUrl lib (normalizeUrl lib (pre ++ strOf ("://") ++ t)) =
          normalizeUrl lib (pre ++ strOf ("://") ++ t) := by
      intro hv1f
      have hr0 : (pathOfT t).findIdx netlocDelim = 0 := by
        rcases hPshape with hp0 | ⟨ps, hp0⟩
        · rw [hp0]
          rfl
        · rw [hp0]
          rfl
      have hsplit2 := netloc_append_delim (pyLower lib (netlocOfT t)) (pathOfT t) hDnd hr0
      have hP2path : pathOfT (pyLower lib (netlocOfT t) ++ pathOfT t) = pathOfT t := by
        rw [pathOfT, hsplit2.2, splitOnceChar_eq_none_of_not_mem '?' (pathOfT t) hPq]
      have hQ2 : queryOfT (pyLower lib (netlocOfT t) ++ pathOfT t) = [] := by
        rw [queryOfT, hsplit2.2, splitOnceChar_eq_none_of_not_mem '?' (pathOfT t) hPq]
      have ht2u : ∀ c ∈ pyLower lib (netlocOfT t) ++ pathOfT t, unsafeUrlByte c = false := by
        intro c hc
        rcases List.mem_append.mp hc with h1 | h1
        · exact hDun c h1
        · exact hPun c h1
      have ht2h : '#' ∉ pyLower lib (netlocOfT t) ++ pathOfT t := by
        intro hm
        rcases List.mem_append.mp hm with h1 | h1
        · exact hDh h1
        · exact hPhash h1
      have ht2nl : pyIsAscii (netlocOfT (pyLower lib (netlocOfT t) ++ pathOfT t)) = true := by
        rw [hsplit2.1]
        exact pyLower_ascii lib _ hNa
      have ht2bb : bracketBad (netlocOfT (pyLower lib (netlocOfT t) ++ pathOfT t)) = false := by
        rw [hsplit2.1, bracketBad_pyLower lib _ hNa]
        exact hbbf
      have ht2semi : ';' ∉ pathOfT (pyLower lib (netlocOfT t) ++ pathOfT t) := by
        rw [hP2path]
        exact hsemiP
      have hP2 := pyUrlparse_http lib pre (pyLower lib (netlocOfT t) ++ pathOfT t) hpre
        ht2u ht2h ht2nl ht2bb ht2semi
      rw [hsplit2.1, hP2path, hQ2] at hP2
      have hv2 : normalizeUrl lib
          (pre ++ strOf ("://") ++ (pyLower lib (netlocOfT t) ++ pathOfT t)) =
          pre ++ strOf ("://") ++
            (if isPre (strOf ("xn--")) (pyLower lib (pyLower lib (netlocOfT t))) ||
                containsSub (strOf (".xn--")) (pyLower lib (pyLower lib (netlocOfT t))) then
              (lib.idnaDecode (pyLower lib (pyLower lib (netlocOfT t)))).getD
                (pyLower lib (pyLower lib (netlocOfT t)))
            else pyLower lib (pyLower lib (netlocOfT t))) ++ unquote (pathOfT t) := by
        rw [normalizeUrl, hP2]
        rfl
      rw [pyLower_fix lib (netlocOfT t) hNa, hxn1, hxn2, hq] at hv2
      have hv2f : normalizeUrl lib
          (pre ++ strOf ("://") ++ (pyLower lib (netlocOfT t) ++ pathOfT t)) =
          pre ++ strOf ("://") ++ pyLower lib (netlocOfT t) ++ pathOfT t := hv2
      have hVeq : pre ++ strOf ("://") ++ pyLower lib (netlocOfT t) ++ pathOfT t =
          pre ++ strOf ("://") ++ (pyLower lib (netlocOfT t) ++ pathOfT t) :=
        List.append_assoc _ _ _
      rw [hv1f, hVeq, hv2f]
      exact hVeq
    by_cases hQz : queryOfT t = []
    · apply downstream
      rw [hQz] at hv1gen
      exact hv1gen
    · by_cases hQP : (splitAllChar '&' (queryOfT t)).filter (normKeep lib) = []
      · apply downstream
        rw [if_pos hQz, hQP] at hv1gen
        exact hv1gen
      · by_cases hCQ : pyJoin (strOf ("&"))
            ((splitAllChar '&' (queryOfT t)).filter (normKeep lib)) = []
        · apply downstream
          rw [if_pos hQz, if_pos hQP, hCQ] at hv1gen
          exact hv1gen
        · rw [if_pos hQz, if_pos hQP, if_pos hCQ] at hv1gen
          have hv1f : normalizeUrl lib (pre ++ strOf ("://") ++ t) =
              pre ++ strOf ("://") ++ pyLower lib (netlocOfT t) ++ pathOfT t ++
                strOf ("?") ++
                pyJoin (strOf ("&"))
                  ((splitAllChar '&' (queryOfT t)).filter (normKeep lib)) := hv1gen
          have hr0 : (pathOfT t ++
              ('?' :: pyJoin (strOf ("&"))
                ((splitAllChar '&' (queryOfT t)).filter (normKeep lib)))).findIdx
                netlocDelim = 0 := by
            rcases hPshape with hp0 | ⟨ps, hp0⟩
            · rw [hp0]
              rfl
            · rw [hp0]
              rfl
          have hfree : ∀ x ∈ (splitAllChar '&' (queryOfT t)).filter (normKeep lib),
              '&' ∉ x := fun x hx =>
            mem_splitAllChar_not_sep '&' (queryOfT t) x (List.mem_of_mem_filter hx)
          have hsplitCQ : splitAllChar '&'
              (pyJoin (strOf ("&")) ((splitAllChar '&' (queryOfT t)).filter (normKeep lib))) =
              (splitAllChar '&' (queryOfT t)).filter (normKeep lib) :=
            splitAllChar_intercalate '&' _ hQP hfree
          have hCQmem : ∀ c ∈ pyJoin (strOf ("&"))
              ((splitAllChar '&' (queryOfT t)).filter (normKeep lib)),
              c = '&' ∨ c ∈ queryOfT t := by
            intro c hc
            rcases mem_intercalate_single '&' _ c hc with h1 | ⟨x, hx, hcx⟩
            · exact Or.inl h1
            · exact Or.inr (mem_of_mem_splitAllChar '&' (queryOfT t) x
                (List.mem_of_mem_filter hx) c hcx)
          have hsplit2 := netloc_append_delim (pyLower lib (netlocOfT t))
            (pathOfT t ++
              ('?' :: pyJoin (strOf ("&"))
                ((splitAllChar '&' (queryOfT t)).filter (normKeep lib)))) hDnd hr0
          have hso : splitOnceChar '?'
              (pathOfT t ++
                ('?' :: pyJoin (strOf ("&"))
                  ((splitAllChar '&' (queryOfT t)).filter (normKeep lib)))) =
              some (pathOfT t,
                pyJoin (strOf ("&")) ((splitAllChar '&' (queryOfT t)).filter (normKeep lib))) :=
            splitOnceChar_append '?' _ _ hPq
          have hP2path : pathOfT (pyLower lib (netlocOfT t) ++
              (pathOfT t ++
                ('?' :: pyJoin (strOf ("&"))
                  ((splitAllChar '&' (queryOfT t)).filter (normKeep lib))))) = pathOfT t := by
            rw [pathOfT, hsplit2.2, hso]
          have hQ2 : queryOfT (pyLower lib (netlocOfT t) ++
              (pathOfT t ++
                ('?' :: pyJoin (strOf ("&"))
                  ((splitAllChar '&' (queryOfT t)).filter (normKeep lib))))) =
              pyJoin (strOf ("&")) ((splitAllChar '&' (queryOfT t)).filter (normKeep lib)) := by
            rw [queryOfT, hsplit2.2, hso]
          have ht2u : ∀ c ∈ pyLower lib (netlocOfT t) ++
              (pathOfT t ++
                ('?' :: pyJoin (strOf ("&"))
                  ((splitAllChar '&' (queryOfT t)).filter (normKeep lib)))),
              unsafeUrlByte c = false := by
            intro c hc
            rcases List.mem_append.mp hc with h1 | h1
            · exact hDun c h1
            rcases List.mem_append.mp h1 with h2 | h2
            · exact hPun c h2
            rcases List.mem_cons.mp h2 with rfl | h3
            · decide
            rcases hCQmem c h3 with rfl | h4
            · decide
            · exact htu c (mem_queryOfT t c h4)
          have ht2h : '#' ∉ pyLower lib (netlocOfT t) ++
              (pathOfT t ++
                ('?' :: pyJoin (strOf ("&"))
                  ((splitAllChar '&' (queryOfT t)).filter (normKeep lib)))) := by
            intro hm
            rcases List.mem_append.mp hm with h1 | h1
            · exact hDh h1
            rcases List.mem_append.mp h1 with h2 | h2
            · exact hPhash h2
            rcases List.mem_cons.mp h2 with h3 | h3
            · exact absurd h3 (by decide)
            rcases hCQmem '#' h3 with h4 | h4
            · exact absurd h4 (by decide)
            · exact hth (mem_queryOfT t '#' h4)
          have ht2nl : pyIsAscii (netlocOfT (pyLower lib (netlocOfT t) ++
              (pathOfT t ++
                ('?' :: pyJoin (strOf ("&"))
                  ((splitAllChar '&' (queryOfT t)).filter (normKeep lib)))))) = true := by
            rw [hsplit2.1]
            exact pyLower_ascii lib _ hNa
          have ht2bb : bracketBad (netlocOfT (pyLower lib (netlocOfT t) ++
              (pathOfT t ++
                ('?' :: pyJoin (strOf ("&"))
                  ((splitAllChar '&' (queryOfT t)).filter (normKeep lib)))))) = false := by
            rw [hsplit2.1, bracketBad_pyLower lib _ hNa]
            exact hbbf
          have ht2semi : ';' ∉ pathOfT (pyLower lib (netlocOfT t) ++
              (pathOfT t ++
                ('?' :: pyJoin (strOf ("&"))
                  ((splitAllChar '&' (queryOfT t)).filter (normKeep lib))))) := by
            rw [hP2path]
            exact hsemiP
          have hP2 := pyUrlparse_http lib pre (pyLower lib (netlocOfT t) ++
            (pathOfT t ++
              ('?' :: pyJoin (strOf ("&"))
                ((splitAllChar '&' (queryOfT t)).filter (normKeep lib))))) hpre
            ht2u ht2h ht2nl ht2bb ht2semi
          rw [hsplit2.1, hP2path, hQ2] at hP2
          have hv2 : normalizeUrl lib
              (pre ++ strOf ("://") ++ (pyLower lib (netlocOfT t) ++
                (pathOfT t ++
                  ('?' :: pyJoin (strOf ("&"))
                    ((splitAllChar '&' (queryOfT t)).filter (normKeep lib)))))) =
              (if (if (if pyJoin (strOf ("&"))
                        ((splitAllChar '&' (queryOfT t)).filter (normKeep lib)) ≠ [] then
                      (splitAllChar '&'
                        (pyJoin (strOf ("&"))
                          ((splitAllChar '&' (queryOfT t)).filter (normKeep lib)))).filter
                        (normKeep lib)
                    else []) ≠ [] then
                  pyJoin (strOf ("&"))
                    (if pyJoin (strOf ("&"))
                        ((splitAllChar '&' (queryOfT t)).filter (normKeep lib)) ≠ [] then
                      (splitAllChar '&'
                        (pyJoin (strOf ("&"))
                          ((splitAllChar '&' (queryOfT t)).filter (normKeep lib)))).filter
                        (normKeep lib)
                    else [])
                else []) ≠ [] then
              (pre ++ strOf ("://") ++
                (if isPre (strOf ("xn--")) (pyLower lib (pyLower lib (netlocOfT t))) ||
                    containsSub (strOf (".xn--"))
                      (pyLower lib (pyLower lib (netlocOfT t))) then
                  (lib.idnaDecode (pyLower lib (pyLower lib (netlocOfT t)))).getD
                    (pyLower lib (pyLower lib (netlocOfT t)))
                else pyLower lib (pyLower lib (netlocOfT t))) ++ unquote (pathOfT t)) ++
                strOf ("?") ++
                (if (if pyJoin (strOf ("&"))
                        ((splitAllChar '&' (queryOfT t)).filter (normKeep lib)) ≠ [] then
                      (splitAllChar '&'
                        (pyJoin (strOf ("&"))
                          ((splitAllChar '&' (queryOfT t)).filter (normKeep lib)))).filter
                        (normKeep lib)
                    else []) ≠ [] then
                  pyJoin (strOf ("&"))
                    (if pyJoin (strOf ("&"))
                        ((splitAllChar '&' (queryOfT t)).filter (normKeep lib)) ≠ [] then
                      (splitAllChar '&'
                        (pyJoin (strOf ("&"))
                          ((splitAllChar '&' (queryOfT t)).filter (normKeep lib)))).filter
                        (normKeep lib)
                    else [])
                else [])
            else
              pre ++ strOf ("://") ++
                (if isPre (strOf ("xn--")) (pyLower lib (pyLower lib (netlocOfT t))) ||
                    containsSub (strOf (".xn--"))
                      (pyLower lib (pyLower lib (netlocOfT t))) then
                  (lib.idnaDecode (pyLower lib (pyLower lib (netlocOfT t)))).getD
                    (pyLower lib (pyLower lib (netlocOfT t)))
                else pyLower lib (pyLower lib (netlocOfT t))) ++ unquote (pathOfT t)) := by
            rw [normalizeUrl, hP2]
            rfl
          rw [pyLower_fix lib (netlocOfT t) hNa, hxn1, hxn2, hq, if_pos hCQ, hsplitCQ,
            filter_idem (normKeep lib) (splitAllChar '&' (queryOfT t)), if_pos hQP,
            if_pos hCQ] at hv2
          have hv2f : normalizeUrl lib
              (pre ++ strOf ("://") ++ (pyLower lib (netlocOfT t) ++
                (pathOfT t ++
                  ('?' :: pyJoin (strOf ("&"))
                    ((splitAllChar '&' (queryOfT t)).filter (normKeep lib)))))) =
              pre ++ strOf ("://") ++ pyLower lib (netlocOfT t) ++ pathOfT t ++
                strOf ("?") ++
                pyJoin (strOf ("&"))
                  ((splitAllChar '&' (queryOfT t)).filter (normKeep lib)) := hv2
          have hVeq : pre ++ strOf ("://") ++ pyLower lib (netlocOfT t) ++ pathOfT t ++
              strOf ("?") ++
              pyJoin (strOf ("&")) ((splitAllChar '&' (queryOfT t)).filter (normKeep lib)) =
              pre ++ strOf ("://") ++ (pyLower lib (netlocOfT t) ++
                (pathOfT t ++
                  ('?' :: pyJoin (strOf ("&"))
                    ((splitAllChar '&' (queryOfT t)).filter (normKeep lib))))) := by
            simp only [List.append_assoc, show strOf ("?") = ['?'] from rfl,
              List.singleton_append]
          rw [hv1f, hVeq, hv2f]
          exact hVeq

/-- C2 (witness): the amended idempotence applied to the concrete extractable
URL `"http://Example.com/path?a=1&utm_source=x"`. -/
theorem c2_normalize_idempotent_witness :
    matchEnd (urlRegex tLib0) none tameUrl = some tameUrl.length ∧
    normalizeUrl tLib0 (normalizeUrl tLib0 tameUrl) = normalizeUrl tLib0 tameUrl :=
  ⟨by decide,
    c2_normalize_idempotent tLib0 tameUrl (by decide) (by decide) (by decide)
      (by decide) (by decide) (by decide)⟩
